import Mathlib

/-!
Verification of the partitioned dataset loader `DataFloorPhotoXY`
(`_data_floor_photo_xy.py`): manifest parsing (`_load_photo_parts`),
the structural-equality helper (`_is_dict_equal`), the part loader
(`load_part` / `_load_data_part`), and the session hasher/serializer
(`save_session` / `load_session` / `_get_file_hash`).

Python strings are embedded as `List Char`; Python `int` values as `Int`;
numpy arrays as Lean lists; exceptions as `Except (List Char)` or `Option`.
The random permutation drawn by `np.random.shuffle` is modelled as an
explicit `shuffler : Nat -> List Nat` parameter: `shuffler n` stands for
the shuffled copy of `np.arange(n)`, which numpy guarantees to be a
permutation of `range n` (carried as a hypothesis in the theorems).
-/

set_option maxHeartbeats 1000000

namespace FloorPhotoXY

/-- A Python string, embedded as its list of characters. -/
abbrev PyStr := List Char

/-- Whitespace test used by Python `str.strip`. -/
def isSpace (c : Char) : Bool :=
  c == ' ' || c == '\t' || c == '\n' || c == '\r'

/-- Python `str.strip()`: drop whitespace on both ends. -/
def pyTrim (s : PyStr) : PyStr :=
  ((s.dropWhile isSpace).reverse.dropWhile isSpace).reverse

/-- Does `s` start with `pat`? -/
def startsWith : PyStr → PyStr → Bool
  | [], _ => true
  | _ :: _, [] => false
  | a :: pa, b :: s => a == b && startsWith pa s

/-- Python `pat in s` (substring containment). -/
def containsSub (pat : PyStr) : PyStr → Bool
  | [] => startsWith pat []
  | c :: cs => startsWith pat (c :: cs) || containsSub pat cs

/-- Worker for `pySplit`; the fuel is at least the length of the remaining
string, and each step consumes at least one character (separators are
nonempty at every call site). -/
def pySplitAux (sep : PyStr) : Nat → PyStr → PyStr → List PyStr
  | 0, acc, s => [acc.reverse ++ s]
  | _ + 1, acc, [] => [acc.reverse]
  | fuel + 1, acc, c :: cs =>
    if startsWith sep (c :: cs) then
      acc.reverse :: pySplitAux sep fuel [] ((c :: cs).drop sep.length)
    else
      pySplitAux sep fuel (c :: acc) cs

/-- Python `s.split(sep)` for a nonempty separator `sep`. -/
def pySplit (sep s : PyStr) : List PyStr :=
  pySplitAux sep s.length [] s

/-- Value of a digit run; `none` when a non-digit appears. -/
def digitsValGo (acc : Nat) : PyStr → Option Nat
  | [] => some acc
  | c :: cs =>
    if c.isDigit then digitsValGo (acc * 10 + (c.toNat - 48)) cs else none

/-- Value of a nonempty all-digit string. -/
def digitsVal : PyStr → Option Nat
  | [] => none
  | c :: cs => digitsValGo 0 (c :: cs)

/-- Python `int(s)`: strip whitespace, optional sign, decimal digits;
`none` models the `ValueError` raised on malformed input. -/
def parseInt (s : PyStr) : Option Int :=
  match pyTrim s with
  | '-' :: rest => (digitsVal rest).map (fun n => -(n : Int))
  | '+' :: rest => (digitsVal rest).map (fun n => (n : Int))
  | rest => (digitsVal rest).map (fun n => (n : Int))

/-- The `[NULL]` marker string of the manifest format. -/
def nullTok : PyStr := "[NULL]".toList

/-- The `part` token splitting the trailing part field. -/
def partTok : PyStr := "part".toList

/-- `_get_part`: `int(line.split('part')[1])`. -/
def getPart (line : PyStr) : Option Int :=
  (pySplit partTok line).get? 1 >>= parseInt

/-- `_get_id`: `int(line.split(',')[0])`. -/
def getId (line : PyStr) : Option Int :=
  (pySplit [','] line).get? 0 >>= parseInt

/-- `_get_project_id`: split the second comma field on hyphens; when the
`[NULL]` marker occurs anywhere in the raw line the project id is read
from field 2, otherwise from field 1. -/
def getProjectId (line : PyStr) : Option Int :=
  match (pySplit [','] line).get? 1 with
  | none => none
  | some f1 =>
    let k := pySplit ['-'] (pyTrim f1)
    if containsSub nullTok line then k.get? 2 >>= parseInt
    else k.get? 1 >>= parseInt

/-- Python `dict` assignment `d[k] = v`: replace the value in place when
the key is present (keeping insertion order), otherwise append. -/
def dictInsert {τ : Type} : List (Int × τ) → Int → τ → List (Int × τ)
  | [], k, v => [(k, v)]
  | (k0, v0) :: rest, k, v =>
    if k0 = k then (k, v) :: rest else (k0, v0) :: dictInsert rest k v

/-- Python `dict` lookup `d[k]`; `none` models the `KeyError`. -/
def dictGet {τ : Type} : List (Int × τ) → Int → Option τ
  | [], _ => none
  | (k0, v0) :: rest, k => if k0 = k then some v0 else dictGet rest k

/-- Python `del d[k]`; removes every entry with key `k` (at most one is
present as the keys stay pairwise distinct under `dictInsert`). -/
def dictErase {τ : Type} (d : List (Int × τ)) (k : Int) : List (Int × τ) :=
  d.filter (fun e => !(e.1 = k : Bool))

/-- Loop state of the manifest parsing loop of `_load_photo_parts`. -/
structure ParseSt where
  partsid : List (Int × (Int × Int))
  projectid : List (Int × List Int)
  lastPart : Int
  lastPartId : Int
  lastId : Int
deriving DecidableEq

/-- The part-boundary block of the loop of `_load_photo_parts`: when
the part number changes, seal the previous part's range and start the
new one. -/
def stepBoundary (st : ParseSt) (j : PyStr) (pj : Int) : Option ParseSt :=
  if pj ≠ st.lastPart then
    (getId j).map (fun lpid =>
      { partsid := dictInsert st.partsid st.lastPart (st.lastPartId, st.lastId)
        projectid := dictInsert st.projectid pj []
        lastPart := pj
        lastPartId := lpid
        lastId := st.lastId : ParseSt })
  else some st

/-- One iteration of the `for j in photo_files` loop of
`_load_photo_parts`: detect a part boundary, seal the previous part,
record the id and the project id of the current line. -/
def stepLine (st : ParseSt) (j : PyStr) : Option ParseSt :=
  getPart j >>= fun pj =>
  stepBoundary st j pj >>= fun st1 =>
  getId j >>= fun lid =>
  getProjectId j >>= fun prid =>
  dictGet st1.projectid pj >>= fun cur =>
  some { st1 with
         lastId := lid
         projectid := dictInsert st1.projectid pj
           (if prid ∈ cur then cur else cur ++ [prid]) }

/-- `Option`-valued left fold, modelling a Python loop whose body can
raise. -/
def optFoldl {σ χ : Type} (f : σ → χ → Option σ) : σ → List χ → Option σ
  | s, [] => some s
  | s, x :: xs =>
    match f s x with
    | none => none
    | some s' => optFoldl f s' xs

/-- Turn an `Option` into an `Except` with the given error message. -/
def toExceptMsg {τ : Type} (msg : PyStr) : Option τ → Except PyStr τ
  | none => Except.error msg
  | some v => Except.ok v

/-- One step `k` of the validation loop at the end of
`_load_photo_parts` (the three asserts on consecutive part keys). -/
def checkAt (partsid : List (Int × (Int × Int))) (keys : List Int) (k : Nat) :
    Except PyStr Unit := do
  let p ← toExceptMsg ("IndexError".toList) (keys.get? k)
  let q ← toExceptMsg ("IndexError".toList) (keys.get? (k + 1))
  let vp ← toExceptMsg ("KeyError".toList) (dictGet partsid p)
  let vq ← toExceptMsg ("KeyError".toList) (dictGet partsid q)
  if q - p ≠ 1 then Except.error ("Parts should diff in 1 unit".toList)
  else if vq.1 ≠ vp.2 + 1 then Except.error ("Invalid part lower continuity".toList)
  else if vp.2 - vp.1 < 1 then Except.error ("Invalid part size".toList)
  else Except.ok ()

/-- Run `checkAt` for every index of the given list, in order. -/
def checksFor (partsid : List (Int × (Int × Int))) (keys : List Int) :
    List Nat → Except PyStr Unit
  | [] => Except.ok ()
  | k :: ks =>
    match checkAt partsid keys k with
    | Except.error e => Except.error e
    | Except.ok _ => checksFor partsid keys ks

/-- `_load_photo_parts`, operating on the raw lines of the manifest file:
filter the header and blank lines, read the total part count from the
last line, run the boundary-sealing loop, discard part 0 from both
mappings, and validate the part keys and ranges. -/
def loadPhotoParts (rawLines : List PyStr) :
    Except PyStr (List PyStr × List (Int × (Int × Int)) × List (Int × List Int)) := do
  let photoFiles := rawLines.filterMap (fun j =>
    let n := pyTrim j
    if n = ("ID,File".toList) ∨ n.length = 0 then none else some n)
  let lastLine ← toExceptMsg ("IndexError".toList) photoFiles.getLast?
  let totalParts ← toExceptMsg ("ValueError".toList) (getPart lastLine)
  if totalParts ≤ 1 then
    Except.error ("Number of parts cannot be lower or equal than 1".toList)
  else do
    let st0 : ParseSt := ⟨[], [(0, [])], 0, 0, 0⟩
    let stF ← toExceptMsg ("ValueError".toList) (optFoldl stepLine st0 photoFiles)
    let partsid1 := dictInsert stF.partsid stF.lastPart (stF.lastPartId, stF.lastId)
    let _ ← toExceptMsg ("KeyError".toList) (dictGet partsid1 0)
    let partsid := dictErase partsid1 0
    let _ ← toExceptMsg ("KeyError".toList) (dictGet stF.projectid 0)
    let projectid := dictErase stF.projectid 0
    let partsKey := partsid.map Prod.fst
    if (partsKey.length : Int) ≠ totalParts then
      Except.error ("Number of parts does not match".toList)
    else do
      let _ ← checksFor partsid partsKey (List.range (partsKey.length - 1))
      Except.ok (photoFiles, partsid, projectid)

/-- A Python scalar appearing in the compared dicts: `int` or `str`. -/
inductive JScal where
  | jint : Int → JScal
  | jstr : PyStr → JScal
deriving DecidableEq

/-- A Python value appearing in the compared dicts: a scalar, a list of
scalars, or a tuple of scalars. `_is_dict_equal` itself only compares
one level deep (nested entries are assumed scalar), so one nesting level
is the domain of the helper. -/
inductive JVal where
  | scal : JScal → JVal
  | jlist : List JScal → JVal
  | jtup : List JScal → JVal
deriving DecidableEq

/-- Python `str(x)` for a scalar: decimal digits for an `int`, the string
itself for a `str`. -/
def keyStr : JScal → PyStr
  | JScal.jint n => (toString n).toList
  | JScal.jstr s => s

/-- Python `==` on scalars: cross-type comparison is `False`. -/
def pyScalEq : JScal → JScal → Bool
  | JScal.jint a, JScal.jint b => a == b
  | JScal.jstr a, JScal.jstr b => a == b
  | _, _ => false

/-- Python `type(x)`, restricted to the types appearing here. -/
def typeTag : JVal → Nat
  | JVal.scal (JScal.jint _) => 0
  | JVal.scal (JScal.jstr _) => 1
  | JVal.jlist _ => 2
  | JVal.jtup _ => 3

/-- Elementwise comparison of two scalar sequences (the inner loop of
`_is_dict_equal`): equal lengths and pairwise Python equality. -/
def seqEq (xs ys : List JScal) : Bool :=
  xs.length == ys.length && (xs.zip ys).all (fun p => pyScalEq p.1 p.2)

/-- Python `type(x)` restricted to scalars. -/
def scalTag : JScal → Nat
  | JScal.jint _ => 0
  | JScal.jstr _ => 1

/-- The per-value comparison of `_is_dict_equal`. A list/tuple on the
left with a non-sequence on the right trips the bare
`assert isinstance(...)`, modelled as `none`; every other outcome is a
`some` boolean. Scalars compare by type and value; a scalar on the left
against a sequence on the right fails the `type(x) != type(y)` check. -/
def valEq (a b : JVal) : Option Bool :=
  match a, b with
  | JVal.jlist xs, JVal.jlist ys => some (seqEq xs ys)
  | JVal.jlist xs, JVal.jtup ys => some (seqEq xs ys)
  | JVal.jlist _, JVal.scal _ => none
  | JVal.jtup xs, JVal.jlist ys => some (seqEq xs ys)
  | JVal.jtup xs, JVal.jtup ys => some (seqEq xs ys)
  | JVal.jtup _, JVal.scal _ => none
  | JVal.scal sa, JVal.scal sb =>
    if scalTag sa ≠ scalTag sb then some false else some (pyScalEq sa sb)
  | JVal.scal _, JVal.jlist _ => some false
  | JVal.scal _, JVal.jtup _ => some false

/-- Paired iteration of `_is_dict_equal` over two dicts of equal length:
compare `str()` of the keys, then the values. -/
def isDictEqualGo : List (JScal × JVal) → List (JScal × JVal) → Option Bool
  | [], [] => some true
  | (kx, vx) :: xs, (ky, vy) :: ys =>
    if keyStr kx ≠ keyStr ky then some false
    else
      match valEq vx vy with
      | none => none
      | some false => some false
      | some true => isDictEqualGo xs ys
  | _, _ => some false

/-- `_is_dict_equal`: `none` models the `AssertionError` crash on a
sequence/non-sequence value pair, `some b` the returned boolean. -/
def isDictEqual (x y : List (JScal × JVal)) : Option Bool :=
  if x.length ≠ y.length then some false else isDictEqualGo x y

/-- The key rewriting done by a `json.dump`/`json.load` round trip:
object keys become strings. -/
def jsonKey : JScal → JScal
  | JScal.jint n => JScal.jstr ((toString n).toList)
  | JScal.jstr s => JScal.jstr s

/-- The value rewriting done by a `json.dump`/`json.load` round trip:
tuples become lists, scalars survive unchanged. -/
def jsonVal : JVal → JVal
  | JVal.scal s => JVal.scal s
  | JVal.jlist l => JVal.jlist l
  | JVal.jtup l => JVal.jlist l

/-- JSON round trip of a whole dict. -/
def jsonDict (d : List (JScal × JVal)) : List (JScal × JVal) :=
  d.map (fun e => (jsonKey e.1, jsonVal e.2))

/-- In-memory form of `_parts_id` as dict data: `int` keys, 2-tuples of
`int` values. -/
def encodePartsId (p : List (Int × (Int × Int))) : List (JScal × JVal) :=
  p.map (fun e => (JScal.jint e.1, JVal.jtup [JScal.jint e.2.1, JScal.jint e.2.2]))

/-- In-memory form of `_parts_project_id` as dict data: `int` keys, lists
of `int` values. -/
def encodeProjectId (p : List (Int × List Int)) : List (JScal × JVal) :=
  p.map (fun e => (JScal.jint e.1, JVal.jlist (e.2.map JScal.jint)))

/-- An image array: `h`/`w` are `shape[0]`/`shape[1]`; `ch` is `none`
for a 2-dimensional array (no channel axis) and `some c` when
`shape[2] == c`; `px` are the (integer) pixel values. -/
structure Img where
  h : Nat
  w : Nat
  ch : Option Nat
  px : List Int
deriving DecidableEq

/-- The size/channel configuration fixed by the constructor. -/
structure Cfg where
  rectSize : Nat
  floorSize : Nat
  rectCh : Nat
  floorCh : Nat
deriving DecidableEq

/-- `np.min` of a pixel list (`none` on the empty array). -/
def listMin : List Nat → Option Nat
  | [] => none
  | x :: xs =>
    some (match listMin xs with
          | none => x
          | some m => min x m)

/-- `np.max` of a pixel list (`none` on the empty array). -/
def listMax : List Nat → Option Nat
  | [] => none
  | x :: xs =>
    some (match listMax xs with
          | none => x
          | some m => max x m)

/-- The pixel pipeline of the rect-image loop before the 0/1 contract
gate: `astype('uint8')` (8-bit wraparound), the optional `cv2.resize`
to the floor-photo size (an external numeric routine, passed in as the
function `rf`), and the optional channel replication
`np.stack((fri,) * floor_ch, axis=-1)`. -/
def normalizedPixels (cfg : Cfg) (rf : List Nat → List Nat) (img : Img) : List Nat :=
  let c1 := img.px.map (fun v => (v.emod 256).toNat)
  let c2 := if cfg.rectSize ≠ cfg.floorSize then rf c1 else c1
  if cfg.rectCh ≠ cfg.floorCh then c2.flatMap (fun v => List.replicate cfg.floorCh v)
  else c2

/-- Shape/channel validation of one rect image (the asserts at the top
of the rect loop of `_load_data_part`). -/
def rectShapeOk (cfg : Cfg) (img : Img) : Bool :=
  img.h == img.w && img.h == cfg.rectSize &&
    (match img.ch with
     | none => cfg.rectCh == 1
     | some c => c == cfg.rectCh)

/-- One iteration of the rect-image loop of `_load_data_part`: shape
asserts, pixel pipeline, the min-0/max-1 contract asserts, then the
rescale `np.multiply(fri, 255, dtype=uint8)`. -/
def processRectImage (cfg : Cfg) (rf : List Nat → List Nat) (img : Img) :
    Except PyStr (List Nat) :=
  if ¬ rectShapeOk cfg img then Except.error ("AssertionError: rect shape".toList)
  else
    match listMin (normalizedPixels cfg rf img), listMax (normalizedPixels cfg rf img) with
    | some mn, some mx =>
      if mn ≠ 0 then Except.error ("Invalid rect image min value, it must be 0".toList)
      else if mx > 1 then Except.error ("Invalid rect image max value, it must be 1".toList)
      else Except.ok ((normalizedPixels cfg rf img).map (fun v => v * 255 % 256))
    | _, _ => Except.error ("ValueError: zero-size array".toList)

/-- Shape/channel validation of one floor photo (the asserts in the
floor-photo loop of `_load_data_part`). -/
def checkFloorImg (cfg : Cfg) (img : Img) : Except PyStr Unit :=
  if img.h ≠ img.w then Except.error ("Floor photo must be square".toList)
  else if img.h ≠ cfg.floorSize then Except.error ("Floor photo image size must be equal than constructor".toList)
  else
    match img.ch with
    | none =>
      if cfg.floorCh ≠ 1 then Except.error ("AssertionError: floor channels".toList)
      else Except.ok ()
    | some c =>
      if c ≠ cfg.floorCh then Except.error ("Invalid number of channels of floor x photo".toList)
      else Except.ok ()

/-- `Except`-valued `mapM` over a list, modelling a Python loop that
builds a list and can raise. -/
def exMapM {χ ψ : Type} (f : χ → Except PyStr ψ) : List χ → Except PyStr (List ψ)
  | [] => Except.ok []
  | x :: xs => do
    let y ← f x
    let ys ← exMapM f xs
    Except.ok (y :: ys)

/-- Run a check over every element of a list, in order. -/
def exAllCheck {χ : Type} (f : χ → Except PyStr Unit) : List χ → Except PyStr Unit
  | [] => Except.ok ()
  | x :: xs =>
    match f x with
    | Except.error e => Except.error e
    | Except.ok _ => exAllCheck f xs

/-- Python list indexing `l[i]` with an `int` index: negative indices
wrap from the end; `none` models the `IndexError`. -/
def pyIndex {χ : Type} (l : List χ) (i : Int) : Option χ :=
  if 0 ≤ i then l.get? i.toNat
  else if 0 ≤ i + l.length then l.get? (i + l.length).toNat
  else none

/-- Python `range(a, b + 1)` over `int` bounds. -/
def intRange (a b : Int) : List Int :=
  (List.range (b + 1 - a).toNat).map (fun (k : Nat) => a + (k : Int))

/-- Parse the four id fields of one manifest line, as the loop body of
`_load_id` does: the leading comma field is the image id; the second
comma field is split on hyphens, and when its first field strips to
`[NULL]` the rect id is the `-1` sentinel and the remaining fields shift
by one position. -/
def parseLineIds (line : PyStr) : Option (Int × Int × Int × Int) := do
  let imageId ← (pySplit [','] line).get? 0 >>= parseInt
  let f1 ← (pySplit [','] line).get? 1
  let k := pySplit ['-'] (pyTrim f1)
  if (k.get? 0).map pyTrim = some nullTok then do
    let projectId ← k.get? 2 >>= parseInt
    let mutatorId ← k.get? 3 >>= parseInt
    pure (imageId, -1, projectId, mutatorId)
  else do
    let rectId ← k.get? 0 >>= parseInt
    let projectId ← k.get? 1 >>= parseInt
    let mutatorId ← k.get? 2 >>= parseInt
    pure (imageId, rectId, projectId, mutatorId)

/-- Split a list of 4-tuples into the four id lists built by
`_load_id`. -/
def unzip4 : List (Int × Int × Int × Int) → List Int × List Int × List Int × List Int
  | [] => ([], [], [], [])
  | (a, b, c, d) :: rest =>
    let r := unzip4 rest
    (a :: r.1, b :: r.2.1, c :: r.2.2.1, d :: r.2.2.2)

/-- `_load_id`: parse the lines at positions `first_id(part)` to
`last_id(part)` of the manifest-line list. -/
def loadId (lines : List PyStr) (a b : Int) :
    Except PyStr (List Int × List Int × List Int × List Int) := do
  let ts ← exMapM (fun j => do
      let ln ← toExceptMsg ("IndexError".toList) (pyIndex lines j)
      toExceptMsg ("ValueError".toList) (parseLineIds ln))
    (intRange a b)
  Except.ok (unzip4 ts)

/-- Boolean membership in a list of indices. -/
def natMem (i : Nat) : List Nat → Bool
  | [] => false
  | j :: js => j == i || natMem i js

/-- `np.where(l == v)[0]`, with `i` the index of the head of `l`. -/
def npWhereGo (v : Int) : Nat → List Int → List Nat
  | _, [] => []
  | i, x :: xs =>
    if x == v then i :: npWhereGo v (i + 1) xs else npWhereGo v (i + 1) xs

/-- `np.where(l == v)[0]`: the positions of `l` holding `v`, ascending. -/
def npWhereEq (l : List Int) (v : Int) : List Nat :=
  npWhereGo v 0 l

/-- `np.delete(l, rem, axis=0)` worker, with `i` the index of the head. -/
def npDeleteGo {χ : Type} (rem : List Nat) : Nat → List χ → List χ
  | _, [] => []
  | i, x :: xs =>
    if natMem i rem then npDeleteGo rem (i + 1) xs
    else x :: npDeleteGo rem (i + 1) xs

/-- `np.delete(l, rem, axis=0)`: drop the listed positions. -/
def npDelete {χ : Type} (l : List χ) (rem : List Nat) : List χ :=
  npDeleteGo rem 0 l

/-- Numpy fancy indexing `l[indices]`, as applied to each array after
`np.random.shuffle`; out-of-range positions (impossible for a real
permutation) read the supplied default. -/
def applyShuffle {χ : Type} (indices : List Nat) (dflt : χ) (l : List χ) : List χ :=
  indices.map (fun i => l.getD i dflt)

/-- Result of `_load_data_part` before the remove-null counter is
attached: the processed rect images, the floor photos, and the four id
arrays. -/
structure BaseResult where
  npr : List (List Nat)
  fp : List Img
  image : List Int
  rect : List Int
  project : List Int
  mutator : List Int
deriving DecidableEq

/-- The remove-null step of `_load_data_part`: positions of `-1` in the
rect-id array are deleted in lockstep from all five arrays (skipped when
nothing is flagged). Returns the new arrays and `total_removed`. -/
def removeNullStage (b : BaseResult) : BaseResult × Nat :=
  let rem := npWhereEq b.rect (-1)
  if rem.length > 0 then
    (⟨npDelete b.npr rem, npDelete b.fp rem, npDelete b.image rem,
      npDelete b.rect rem, npDelete b.project rem, npDelete b.mutator rem⟩,
     rem.length)
  else (b, 0)

/-- The shuffle step of `_load_data_part`: one drawn permutation applied
to all five arrays in lockstep. -/
def shuffleStage (indices : List Nat) (b : BaseResult) : BaseResult :=
  ⟨applyShuffle indices [] b.npr,
   applyShuffle indices ⟨0, 0, none, []⟩ b.fp,
   applyShuffle indices 0 b.image,
   applyShuffle indices 0 b.rect,
   applyShuffle indices 0 b.project,
   applyShuffle indices 0 b.mutator⟩

/-- The deterministic part of `_load_data_part` for one stream: slice
and process the rect images over the part range, load and validate this
part's floor photos, parse the id table. `rectArr` is the full
concatenated rect array, `fpParts` the list of per-part floor-photo
arrays, `lines` the manifest-line list of the stream. -/
def loadBase (cfg : Cfg) (rf : List Nat → List Nat) (rectArr : List Img)
    (fpParts : List (List Img)) (lines : List PyStr)
    (partsId : List (Int × (Int × Int))) (part : Int) :
    Except PyStr BaseResult := do
  let ab ← toExceptMsg ("KeyError".toList) (dictGet partsId part)
  let idx := intRange ab.1 ab.2
  let npr ← exMapM (fun i => do
      let img ← toExceptMsg ("IndexError".toList) (pyIndex rectArr i)
      processRectImage cfg rf img)
    idx
  let fparr ← toExceptMsg ("IndexError".toList) (pyIndex fpParts (part - 1))
  if fparr.length ≠ npr.length then
    Except.error ("Floor photo size is different than rect image size".toList)
  else do
    let _ ← exAllCheck (checkFloorImg cfg) fparr
    let ids ← loadId lines ab.1 ab.2
    Except.ok ⟨npr, fparr, ids.1, ids.2.1, ids.2.2.1, ids.2.2.2⟩

/-- `_load_data_part` for one stream: the deterministic base load, the
optional remove-null step, then the optional shuffle with the drawn
permutation `shuffler n` of `np.arange(n)`. -/
def loadDataPart (cfg : Cfg) (rf : List Nat → List Nat) (rectArr : List Img)
    (fpParts : List (List Img)) (lines : List PyStr)
    (partsId : List (Int × (Int × Int))) (part : Int)
    (removeNull shuffle : Bool) (shuffler : Nat → List Nat) :
    Except PyStr (BaseResult × Nat) := do
  let b0 ← loadBase cfg rf rectArr fpParts lines partsId part
  let br := if removeNull then removeNullStage b0 else (b0, 0)
  let b2 := if shuffle then shuffleStage (shuffler br.1.npr.length) br.1 else br.1
  Except.ok (b2, br.2)

/-- The loader state relevant to `load_part`: the configuration, both
streams' arrays and manifest lines, the reconciled part-range dict, and
the part count. -/
structure XYData where
  cfg : Cfg
  rf : List Nat → List Nat
  rectX : List Img
  rectY : List Img
  fpartsX : List (List Img)
  fpartsY : List (List Img)
  photoFilesX : List PyStr
  photoFilesY : List PyStr
  partsId : List (Int × (Int × Int))
  numParts : Int

/-- One stream's slot of the output bundle: `len` is `x_len`/`y_len`
(the floor-photo count), `removed` is `x_removed`/`y_removed`. -/
structure StreamOut where
  len : Nat
  removed : Nat
  res : BaseResult
deriving DecidableEq

/-- The `load_part` output bundle (the memory-size estimate of the
source, a measurement of the interpreter heap, is not modelled). -/
structure Bundle where
  x : Option StreamOut
  y : Option StreamOut
  part : Int
  xy : PyStr
deriving DecidableEq

/-- Package one stream's `_load_data_part` result into its bundle slot:
`x_len`/`y_len` is the floor-photo count, `x_removed`/`y_removed` the
removed counter. -/
def streamOut (pr : BaseResult × Nat) : StreamOut :=
  ⟨pr.1.fp.length, pr.2, pr.1⟩

/-- `load_part`: validate the part number and the stream selector, run
`_load_data_part` per requested stream, and package the bundle. The two
streams draw independent permutations, hence the two shufflers. -/
def loadPart (st : XYData) (part : Int) (xy : PyStr)
    (removeNull shuffle : Bool) (shX shY : Nat → List Nat) :
    Except PyStr Bundle :=
  if ¬ (1 ≤ part ∧ part ≤ st.numParts) then
    Except.error ("Number of parts overflow".toList)
  else if ¬ (xy = ("x".toList) ∨ xy = ("y".toList) ∨ xy = ("xy".toList)) then
    Except.error ("Invalid xy".toList)
  else
    (if xy = ("x".toList) ∨ xy = ("xy".toList) then
        Except.map (fun pr => some (streamOut pr))
          (loadDataPart st.cfg st.rf st.rectX st.fpartsX st.photoFilesX
            st.partsId part removeNull shuffle shX)
      else Except.ok none) >>= fun ox =>
    (if xy = ("y".toList) ∨ xy = ("xy".toList) then
        Except.map (fun pr => some (streamOut pr))
          (loadDataPart st.cfg st.rf st.rectY st.fpartsY st.photoFilesY
            st.partsId part removeNull shuffle shY)
      else Except.ok none) >>= fun oy =>
    Except.ok ⟨ox, oy, part, xy⟩

/-- The on-disk shard files of both streams: the two concatenated
rect-image files and the per-part floor-photo files (one list entry per
part, x and y kept in lockstep by construction), each as raw bytes. -/
structure FilesState where
  rectX : List Nat
  rectY : List Nat
  photoX : List (List Nat)
  photoY : List (List Nat)
deriving DecidableEq

/-- The `'rect'` family hash of `_get_file_hash`: one digest (`md5`,
kept abstract) per rect file, chained through a second digest (`chain`,
the incremental `hashlib.md5` over the concatenated hex digests). -/
def hashRectFiles (md5 : List Nat → PyStr) (chain : PyStr → PyStr)
    (fs : FilesState) : PyStr :=
  chain (md5 fs.rectX ++ md5 fs.rectY)

/-- The `'fphoto'` family hash of `_get_file_hash`: per part, the x then
the y floor-photo file digest, all chained in order. -/
def hashPhotoFiles (md5 : List Nat → PyStr) (chain : PyStr → PyStr)
    (fs : FilesState) : PyStr :=
  chain (((fs.photoX.zip fs.photoY).map (fun p => md5 p.1 ++ md5 p.2)).flatten)

/-- `_get_file_hash`: dispatch on the `'rect'`/`'fphoto'` selector; any
other selector raises. -/
def getFileHash (md5 : List Nat → PyStr) (chain : PyStr → PyStr)
    (fs : FilesState) (xy : PyStr) : Except PyStr PyStr :=
  if xy = ("rect".toList) then Except.ok (hashRectFiles md5 chain fs)
  else if xy = ("fphoto".toList) then Except.ok (hashPhotoFiles md5 chain fs)
  else Except.error ("Invalid xy, expected rect or fphoto".toList)

/-- The loader metadata written into a session record. -/
structure LoaderMeta where
  partsId : List (Int × (Int × Int))
  partsProjectId : List (Int × List Int)
  rectImageSize : Int
  floorPhotoSize : Int
  rectImageCh : Int
  floorPhotoCh : Int
deriving DecidableEq

/-- The session export version string `_SESSION_EXPORT_VERSION`. -/
def sessionVersion : PyStr := "1.1".toList

/-- A session record as `load_session` reads it back from the JSON file:
dict keys have become strings and tuples lists (the fields not read back
by `load_session` or the claims, such as the save date, are omitted). -/
structure SessionData where
  version : PyStr
  cls : PyStr
  description : PyStr
  partsId : List (JScal × JVal)
  partsProjectId : List (JScal × JVal)
  rectImageSize : Int
  floorPhotoSize : Int
  hashRect : PyStr
  hashFloor : PyStr

/-- `save_session`: write the version, class identity, configuration,
both dicts (as their JSON round-tripped form, which is what a later
`load_session` will read), and both family hashes over the current
files. -/
def saveSession (md5 : List Nat → PyStr) (chain : PyStr → PyStr)
    (meta : LoaderMeta) (fs : FilesState) (description : PyStr) : SessionData :=
  { version := sessionVersion
    cls := "DataFloorPhotoXY".toList
    description := description
    partsId := jsonDict (encodePartsId meta.partsId)
    partsProjectId := jsonDict (encodeProjectId meta.partsProjectId)
    rectImageSize := meta.rectImageSize
    floorPhotoSize := meta.floorPhotoSize
    hashRect := hashRectFiles md5 chain fs
    hashFloor := hashPhotoFiles md5 chain fs }

/-- `load_session`: check the version, the class identity, both family
hashes against the **current** files, both dicts via `_is_dict_equal`
against the in-memory ones, and the two configured sizes. The first
failing check raises with its message. -/
def loadSession (md5 : List Nat → PyStr) (chain : PyStr → PyStr)
    (meta : LoaderMeta) (fs : FilesState) (sess : SessionData) :
    Except PyStr Unit :=
  if sess.version ≠ sessionVersion then
    Except.error ("Outdated session export version".toList)
  else if sess.cls ≠ ("DataFloorPhotoXY".toList) then
    Except.error ("Data class is not valid".toList)
  else if hashRectFiles md5 chain fs ≠ sess.hashRect then
    Except.error ("Rect image hash is not the same".toList)
  else if hashPhotoFiles md5 chain fs ≠ sess.hashFloor then
    Except.error ("Floor image hash is not the same".toList)
  else
    match isDictEqual (encodePartsId meta.partsId) sess.partsId with
    | none => Except.error ("TypeError".toList)
    | some false => Except.error ("ID partition changed".toList)
    | some true =>
      match isDictEqual (encodeProjectId meta.partsProjectId) sess.partsProjectId with
      | none => Except.error ("TypeError".toList)
      | some false => Except.error ("Project ID partition changed".toList)
      | some true =>
        if sess.rectImageSize ≠ meta.rectImageSize then
          Except.error ("Rect image size changed".toList)
        else if sess.floorPhotoSize ≠ meta.floorPhotoSize then
          Except.error ("Floor image size changed".toList)
        else Except.ok ()

/-! ### Helper lemmas -/

theorem exMapM_ok_length {χ ψ : Type} {f : χ → Except PyStr ψ} :
    ∀ {l : List χ} {ys : List ψ}, exMapM f l = Except.ok ys → ys.length = l.length := by
  intro l
  induction l with
  | nil => intro ys h; simp [exMapM] at h; simp [← h]
  | cons x xs ih =>
    intro ys h
    simp only [exMapM] at h
    cases hfx : f x with
    | error e => rw [hfx] at h; simp [Bind.bind, Except.bind] at h
    | ok y =>
      rw [hfx] at h
      cases hrest : exMapM f xs with
      | error e => rw [hrest] at h; simp [Bind.bind, Except.bind] at h
      | ok ys' =>
        rw [hrest] at h
        simp [Bind.bind, Except.bind, pure, Except.pure] at h
        subst h
        simp [ih hrest]

theorem exMapM_ok_get {χ ψ : Type} {f : χ → Except PyStr ψ} :
    ∀ {l : List χ} {ys : List ψ}, exMapM f l = Except.ok ys →
      ∀ j, j < l.length → ∃ x y, l.get? j = some x ∧ ys.get? j = some y ∧ f x = Except.ok y := by
  intro l
  induction l with
  | nil => intro ys _ j hj; simp at hj
  | cons x xs ih =>
    intro ys h j hj
    simp only [exMapM] at h
    cases hfx : f x with
    | error e => rw [hfx] at h; simp [Bind.bind, Except.bind] at h
    | ok y =>
      rw [hfx] at h
      cases hrest : exMapM f xs with
      | error e => rw [hrest] at h; simp [Bind.bind, Except.bind] at h
      | ok ys' =>
        rw [hrest] at h
        simp [Bind.bind, Except.bind, pure, Except.pure] at h
        subst h
        cases j with
        | zero => exact ⟨x, y, rfl, rfl, hfx⟩
        | succ j' =>
          simp only [List.length_cons, Nat.succ_lt_succ_iff] at hj
          simpa using ih hrest j' hj

theorem exMapM_ok_of_mem {χ ψ : Type} {f : χ → Except PyStr ψ} :
    ∀ {l : List χ} {ys : List ψ}, exMapM f l = Except.ok ys →
      ∀ x ∈ l, ∃ y, f x = Except.ok y := by
  intro l
  induction l with
  | nil => intro ys _ x hx; simp at hx
  | cons a xs ih =>
    intro ys h x hx
    simp only [exMapM] at h
    cases hfa : f a with
    | error e => rw [hfa] at h; simp [Bind.bind, Except.bind] at h
    | ok y =>
      rw [hfa] at h
      cases hrest : exMapM f xs with
      | error e => rw [hrest] at h; simp [Bind.bind, Except.bind] at h
      | ok ys' =>
        rcases List.mem_cons.mp hx with rfl | hx'
        · exact ⟨y, hfa⟩
        · exact ih hrest x hx'

theorem intRange_length (a b : Int) : (intRange a b).length = (b + 1 - a).toNat := by
  rw [intRange, List.length_map, List.length_range]

theorem intRange_get? (a b : Int) (j : Nat) (hj : j < (b + 1 - a).toNat) :
    (intRange a b).get? j = some (a + (j : Int)) := by
  rw [intRange, List.get?_eq_getElem?, List.getElem?_map, List.getElem?_range hj]
  rfl

theorem getD_range {χ : Type} (l : List χ) (d : χ) :
    (List.range l.length).map (fun i => l.getD i d) = l := by
  induction l with
  | nil => simp
  | cons x xs ih =>
    rw [List.length_cons, List.range_succ_eq_map, List.map_cons, List.map_map]
    have h2 : (List.range xs.length).map ((fun i => (x :: xs).getD i d) ∘ Nat.succ)
        = (List.range xs.length).map (fun i => xs.getD i d) := by
      apply List.map_congr_left
      intro i _
      simp [List.getD_cons_succ]
    rw [List.getD_cons_zero, h2, ih]

/-- Specification view of the remove-null deletion: walk the rect-id
list `r` and a payload list `x` in lockstep, dropping the payload
entries whose rect id equals `v`. -/
def maskFilter {χ : Type} (v : Int) : List Int → List χ → List χ
  | r :: rs, x :: xs =>
    if r == v then maskFilter v rs xs else x :: maskFilter v rs xs
  | _, _ => []

/-- Number of occurrences of `v`. -/
def countV (v : Int) : List Int → Nat
  | [] => 0
  | r :: rs => (if r == v then 1 else 0) + countV v rs

theorem npWhereGo_ge {v : Int} :
    ∀ (l : List Int) (i j : Nat), natMem j (npWhereGo v i l) = true → i ≤ j := by
  intro l
  induction l with
  | nil => intro i j h; simp [npWhereGo, natMem] at h
  | cons r rs ih =>
    intro i j h
    by_cases hr : (r == v) = true
    · simp only [npWhereGo, hr, if_pos] at h
      simp only [natMem, Bool.or_eq_true, beq_iff_eq] at h
      rcases h with rfl | h
      · exact Nat.le_refl _
      · exact Nat.le_of_succ_le (ih (i + 1) j h)
    · simp only [npWhereGo, hr, if_neg, Bool.false_eq_true, not_false_eq_true] at h
      exact Nat.le_of_succ_le (ih (i + 1) j h)

theorem npDeleteGo_cons_lt {χ : Type} {v : Nat} {rem : List Nat} :
    ∀ (xs : List χ) (j : Nat), v < j → npDeleteGo (v :: rem) j xs = npDeleteGo rem j xs := by
  intro xs
  induction xs with
  | nil => intro j _; simp [npDeleteGo]
  | cons x xs ih =>
    intro j hj
    have hne : (v == j) = false := by
      simp only [beq_eq_false_iff_ne]
      exact Nat.ne_of_lt hj
    simp only [npDeleteGo, natMem, hne, Bool.false_or]
    by_cases hm : natMem j rem = true
    · rw [hm]
      simp only [if_pos]
      exact ih (j + 1) (Nat.lt_succ_of_lt hj)
    · simp only [Bool.not_eq_true] at hm
      rw [hm]
      simp only [Bool.false_eq_true, if_neg, not_false_eq_true]
      rw [ih (j + 1) (Nat.lt_succ_of_lt hj)]

theorem npDeleteGo_where_eq_maskFilter {χ : Type} {v : Int} :
    ∀ (r : List Int) (x : List χ) (i : Nat), x.length = r.length →
      npDeleteGo (npWhereGo v i r) i x = maskFilter v r x := by
  intro r
  induction r with
  | nil =>
    intro x i hx
    cases x with
    | nil => simp [npWhereGo, npDeleteGo, maskFilter]
    | cons y ys => simp at hx
  | cons r0 rs ih =>
    intro x i hx
    cases x with
    | nil => simp at hx
    | cons x0 xs =>
      simp only [List.length_cons, Nat.succ_inj] at hx
      by_cases hr : (r0 == v) = true
      · simp only [npWhereGo, hr, if_pos, maskFilter]
        have hmem : natMem i (i :: npWhereGo v (i + 1) rs) = true := by
          simp [natMem]
        simp only [npDeleteGo, hmem, if_pos]
        rw [npDeleteGo_cons_lt xs (i + 1) (Nat.lt_succ_self i)]
        exact ih xs (i + 1) hx
      · simp only [npWhereGo, hr, Bool.false_eq_true, if_neg, not_false_eq_true, maskFilter]
        have hmem : natMem i (npWhereGo v (i + 1) rs) = false := by
          by_contra hc
          simp only [Bool.not_eq_false] at hc
          have := npWhereGo_ge rs (i + 1) i hc
          omega
        simp only [npDeleteGo, hmem, Bool.false_eq_true, if_neg, not_false_eq_true]
        rw [ih xs (i + 1) hx]

theorem npDelete_where_eq_maskFilter {χ : Type} (v : Int) (r : List Int) (x : List χ)
    (hx : x.length = r.length) :
    npDelete x (npWhereEq r v) = maskFilter v r x :=
  npDeleteGo_where_eq_maskFilter r x 0 hx

theorem npWhereGo_length {v : Int} :
    ∀ (l : List Int) (i : Nat), (npWhereGo v i l).length = countV v l := by
  intro l
  induction l with
  | nil => intro i; simp [npWhereGo, countV]
  | cons r rs ih =>
    intro i
    by_cases hr : (r == v) = true
    · simp [npWhereGo, countV, hr, ih]
      omega
    · simp only [Bool.not_eq_true] at hr
      simp [npWhereGo, countV, hr, ih]

theorem maskFilter_length {χ : Type} (v : Int) :
    ∀ (r : List Int) (x : List χ), x.length = r.length →
      (maskFilter v r x).length + countV v r = r.length := by
  intro r
  induction r with
  | nil => intro x _; simp [maskFilter, countV]
  | cons r0 rs ih =>
    intro x hx
    cases x with
    | nil => simp at hx
    | cons x0 xs =>
      simp only [List.length_cons, Nat.succ_inj] at hx
      by_cases hr : (r0 == v) = true
      · simp only [maskFilter, hr, if_pos, countV]
        have := ih xs hx
        simp only [List.length_cons]
        omega
      · simp only [maskFilter, hr, Bool.false_eq_true, if_neg, not_false_eq_true, countV]
        have := ih xs hx
        simp only [List.length_cons]
        omega

theorem maskFilter_self_ne {v : Int} :
    ∀ (r : List Int), ∀ y ∈ maskFilter v r r, y ≠ v := by
  intro r
  induction r with
  | nil => intro y hy; simp [maskFilter] at hy
  | cons r0 rs ih =>
    intro y hy
    by_cases hr : (r0 == v) = true
    · simp only [maskFilter, hr, if_pos] at hy
      exact ih y hy
    · simp only [maskFilter, hr, Bool.false_eq_true, if_neg, not_false_eq_true,
        List.mem_cons] at hy
      rcases hy with rfl | hy
      · simpa using hr
      · exact ih y hy

theorem applyShuffle_length {χ : Type} (idx : List Nat) (d : χ) (l : List χ) :
    (applyShuffle idx d l).length = idx.length :=
  List.length_map _ _

theorem applyShuffle_perm {χ : Type} {idx : List Nat} {n : Nat} (d : χ) (l : List χ)
    (hl : l.length = n) (hidx : idx.Perm (List.range n)) :
    (applyShuffle idx d l).Perm l := by
  have h1 : (applyShuffle idx d l).Perm ((List.range n).map (fun i => l.getD i d)) :=
    hidx.map _
  have h2 : (List.range n).map (fun i => l.getD i d) = l := by
    rw [← hl]
    exact getD_range l d
  rw [h2] at h1
  exact h1

theorem getD_zip {χ ψ : Type} :
    ∀ (l1 : List χ) (l2 : List ψ) (i : Nat) (d1 : χ) (d2 : ψ),
      i < l1.length → i < l2.length →
      (l1.zip l2).getD i (d1, d2) = (l1.getD i d1, l2.getD i d2) := by
  intro l1
  induction l1 with
  | nil => intro l2 i d1 d2 h1 _; simp at h1
  | cons x xs ih =>
    intro l2 i d1 d2 h1 h2
    cases l2 with
    | nil => simp at h2
    | cons y ys =>
      cases i with
      | zero => simp [List.zip_cons_cons]
      | succ i' =>
        simp only [List.length_cons, Nat.succ_lt_succ_iff] at h1 h2
        simp only [List.zip_cons_cons, List.getD_cons_succ]
        exact ih ys i' d1 d2 h1 h2

theorem applyShuffle_zip {χ ψ : Type} (idx : List Nat) (d1 : χ) (d2 : ψ)
    (l1 : List χ) (l2 : List ψ)
    (hb : ∀ i ∈ idx, i < l1.length ∧ i < l2.length) :
    (applyShuffle idx d1 l1).zip (applyShuffle idx d2 l2)
      = applyShuffle idx (d1, d2) (l1.zip l2) := by
  unfold applyShuffle
  rw [List.zip_map']
  apply List.map_congr_left
  intro i hi
  exact (getD_zip l1 l2 i d1 d2 (hb i hi).1 (hb i hi).2).symm

/-- The lockstep rows of a load result: one nested tuple per position,
pairing the processed rect image, the floor photo, and the four ids. -/
def rows (b : BaseResult) : List (List Nat × Img × Int × Int × Int × Int) :=
  b.npr.zip (b.fp.zip (b.image.zip (b.rect.zip (b.project.zip b.mutator))))

/-- Default element used when reading rows through numpy indexing. -/
def rowDflt : List Nat × Img × Int × Int × Int × Int :=
  ([], ⟨0, 0, none, []⟩, 0, 0, 0, 0)

theorem rows_length_of_lengths {b : BaseResult} {n : Nat}
    (h1 : b.npr.length = n) (h2 : b.fp.length = n) (h3 : b.image.length = n)
    (h4 : b.rect.length = n) (h5 : b.project.length = n) (h6 : b.mutator.length = n) :
    (rows b).length = n := by
  simp [rows, List.length_zip, h1, h2, h3, h4, h5, h6]

theorem shuffleStage_rows {b : BaseResult} {idx : List Nat} {n : Nat}
    (h1 : b.npr.length = n) (h2 : b.fp.length = n) (h3 : b.image.length = n)
    (h4 : b.rect.length = n) (h5 : b.project.length = n) (h6 : b.mutator.length = n)
    (hidx : ∀ i ∈ idx, i < n) :
    rows (shuffleStage idx b) = applyShuffle idx rowDflt (rows b) := by
  have hz1 : (b.project.zip b.mutator).length = n := by
    simp [List.length_zip, h5, h6]
  have hz2 : (b.rect.zip (b.project.zip b.mutator)).length = n := by
    simp [List.length_zip, h4, hz1]
  have hz3 : (b.image.zip (b.rect.zip (b.project.zip b.mutator))).length = n := by
    simp [List.length_zip, h3, hz2]
  have hz4 : (b.fp.zip (b.image.zip (b.rect.zip (b.project.zip b.mutator)))).length = n := by
    simp [List.length_zip, h2, hz3]
  unfold rows shuffleStage
  rw [applyShuffle_zip idx (0 : Int) (0 : Int) b.project b.mutator
    (fun i hi => ⟨h5 ▸ hidx i hi, h6 ▸ hidx i hi⟩)]
  rw [applyShuffle_zip idx (0 : Int) ((0 : Int), (0 : Int)) b.rect _
    (fun i hi => ⟨h4 ▸ hidx i hi, hz1 ▸ hidx i hi⟩)]
  rw [applyShuffle_zip idx (0 : Int) ((0 : Int), (0 : Int), (0 : Int)) b.image _
    (fun i hi => ⟨h3 ▸ hidx i hi, hz2 ▸ hidx i hi⟩)]
  rw [applyShuffle_zip idx (⟨0, 0, none, []⟩ : Img) ((0 : Int), (0 : Int), (0 : Int), (0 : Int)) b.fp _
    (fun i hi => ⟨h2 ▸ hidx i hi, hz3 ▸ hidx i hi⟩)]
  rw [applyShuffle_zip idx ([] : List Nat)
    ((⟨0, 0, none, []⟩ : Img), (0 : Int), (0 : Int), (0 : Int), (0 : Int)) b.npr _
    (fun i hi => ⟨h1 ▸ hidx i hi, hz4 ▸ hidx i hi⟩)]
  rfl

theorem toExceptMsg_ok {τ : Type} {msg : PyStr} {o : Option τ} {x : τ}
    (h : toExceptMsg msg o = Except.ok x) : o = some x := by
  cases o with
  | none => simp [toExceptMsg] at h
  | some v => simp [toExceptMsg] at h; simp [h]

theorem exBind_ok {ε α β : Type} {m : Except ε α} {f : α → Except ε β} {y : β}
    (h : (m >>= f) = Except.ok y) : ∃ x, m = Except.ok x ∧ f x = Except.ok y := by
  cases m with
  | error e => simp [Bind.bind, Except.bind] at h
  | ok x => exact ⟨x, rfl, by simpa [Bind.bind, Except.bind] using h⟩

theorem exMap_ok {ε α β : Type} {m : Except ε α} {f : α → β} {y : β}
    (h : Except.map f m = Except.ok y) : ∃ x, m = Except.ok x ∧ y = f x := by
  cases m with
  | error e => simp [Except.map] at h
  | ok x =>
    refine ⟨x, rfl, ?_⟩
    simp only [Except.map, Except.ok.injEq] at h
    exact h.symm

theorem unzip4_lengths :
    ∀ (ts : List (Int × Int × Int × Int)),
      (unzip4 ts).1.length = ts.length ∧ (unzip4 ts).2.1.length = ts.length ∧
      (unzip4 ts).2.2.1.length = ts.length ∧ (unzip4 ts).2.2.2.length = ts.length := by
  intro ts
  induction ts with
  | nil => simp [unzip4]
  | cons t rest ih =>
    obtain ⟨t1, t2, t3, t4⟩ := t
    simp only [unzip4, List.length_cons]
    exact ⟨by simp [ih.1], by simp [ih.2.1], by simp [ih.2.2.1], by simp [ih.2.2.2]⟩

theorem loadId_ok_inv {lines : List PyStr} {a b : Int}
    {ids : List Int × List Int × List Int × List Int}
    (h : loadId lines a b = Except.ok ids) :
    ∃ ts, exMapM (fun j => do
        let ln ← toExceptMsg ("IndexError".toList) (pyIndex lines j)
        toExceptMsg ("ValueError".toList) (parseLineIds ln)) (intRange a b) = Except.ok ts
      ∧ ids = unzip4 ts := by
  unfold loadId at h
  obtain ⟨ts, hts, hpure⟩ := exBind_ok h
  refine ⟨ts, hts, ?_⟩
  simpa using hpure.symm

theorem loadBase_ok_inv {cfg : Cfg} {rf : List Nat → List Nat} {rectArr : List Img}
    {fpParts : List (List Img)} {lines : List PyStr}
    {partsId : List (Int × (Int × Int))} {part : Int} {b : BaseResult}
    (h : loadBase cfg rf rectArr fpParts lines partsId part = Except.ok b) :
    ∃ ab, dictGet partsId part = some ab ∧
    ∃ npr, exMapM (fun i => do
        let img ← toExceptMsg ("IndexError".toList) (pyIndex rectArr i)
        processRectImage cfg rf img) (intRange ab.1 ab.2) = Except.ok npr ∧
    ∃ fparr, pyIndex fpParts (part - 1) = some fparr ∧ fparr.length = npr.length ∧
      exAllCheck (checkFloorImg cfg) fparr = Except.ok () ∧
    ∃ ids, loadId lines ab.1 ab.2 = Except.ok ids ∧
      b = ⟨npr, fparr, ids.1, ids.2.1, ids.2.2.1, ids.2.2.2⟩ := by
  unfold loadBase at h
  obtain ⟨ab, hab, h⟩ := exBind_ok h
  obtain ⟨npr, hnpr, h⟩ := exBind_ok h
  obtain ⟨fparr, hfparr, h⟩ := exBind_ok h
  by_cases hlen : fparr.length ≠ npr.length
  · rw [if_pos hlen] at h
    simp at h
  · rw [if_neg hlen] at h
    push_neg at hlen
    obtain ⟨u, hu, h⟩ := exBind_ok h
    obtain ⟨ids, hids, h⟩ := exBind_ok h
    refine ⟨ab, toExceptMsg_ok hab, npr, hnpr, fparr, toExceptMsg_ok hfparr, hlen, ?_, ids, hids, ?_⟩
    · cases u; exact hu
    · simpa using h.symm

theorem loadBase_lengths {cfg : Cfg} {rf : List Nat → List Nat} {rectArr : List Img}
    {fpParts : List (List Img)} {lines : List PyStr}
    {partsId : List (Int × (Int × Int))} {part : Int} {b : BaseResult}
    (h : loadBase cfg rf rectArr fpParts lines partsId part = Except.ok b) :
    ∃ ab, dictGet partsId part = some ab ∧
      b.npr.length = (ab.2 + 1 - ab.1).toNat ∧ b.fp.length = (ab.2 + 1 - ab.1).toNat ∧
      b.image.length = (ab.2 + 1 - ab.1).toNat ∧ b.rect.length = (ab.2 + 1 - ab.1).toNat ∧
      b.project.length = (ab.2 + 1 - ab.1).toNat ∧ b.mutator.length = (ab.2 + 1 - ab.1).toNat := by
  obtain ⟨ab, hab, npr, hnpr, fparr, _, hlen, _, ids, hids, hb⟩ := loadBase_ok_inv h
  obtain ⟨ts, hts, hids'⟩ := loadId_ok_inv hids
  have hnlen : npr.length = (ab.2 + 1 - ab.1).toNat := by
    rw [exMapM_ok_length hnpr, intRange_length]
  have htlen : ts.length = (ab.2 + 1 - ab.1).toNat := by
    rw [exMapM_ok_length hts, intRange_length]
  obtain ⟨hu1, hu2, hu3, hu4⟩ := unzip4_lengths ts
  subst hb
  subst hids'
  refine ⟨ab, hab, hnlen, by rw [hlen, hnlen], ?_, ?_, ?_, ?_⟩
  · simpa [htlen] using hu1
  · simpa [htlen] using hu2
  · simpa [htlen] using hu3
  · simpa [htlen] using hu4

theorem maskFilter_of_count_zero {χ : Type} (v : Int) :
    ∀ (r : List Int) (x : List χ), countV v r = 0 → x.length = r.length →
      maskFilter v r x = x := by
  intro r
  induction r with
  | nil =>
    intro x _ hx
    cases x with
    | nil => rfl
    | cons y ys => simp at hx
  | cons r0 rs ih =>
    intro x hc hx
    cases x with
    | nil => simp at hx
    | cons x0 xs =>
      simp only [List.length_cons, Nat.succ_inj] at hx
      simp only [countV] at hc
      by_cases hr : (r0 == v) = true
      · rw [if_pos hr] at hc; omega
      · simp only [maskFilter, hr, Bool.false_eq_true, if_neg, not_false_eq_true]
        rw [if_neg hr] at hc
        simp only [Nat.zero_add] at hc
        rw [ih xs hc hx]

theorem removeNullStage_spec {b : BaseResult} {n : Nat}
    (h1 : b.npr.length = n) (h2 : b.fp.length = n) (h3 : b.image.length = n)
    (h4 : b.rect.length = n) (h5 : b.project.length = n) (h6 : b.mutator.length = n) :
    (removeNullStage b).1 = ⟨maskFilter (-1) b.rect b.npr, maskFilter (-1) b.rect b.fp,
      maskFilter (-1) b.rect b.image, maskFilter (-1) b.rect b.rect,
      maskFilter (-1) b.rect b.project, maskFilter (-1) b.rect b.mutator⟩
    ∧ (removeNullStage b).2 = countV (-1) b.rect := by
  have hw : (npWhereEq b.rect (-1)).length = countV (-1) b.rect :=
    npWhereGo_length b.rect 0
  unfold removeNullStage
  by_cases hpos : (npWhereEq b.rect (-1)).length > 0
  · rw [if_pos hpos]
    refine ⟨?_, hw⟩
    have d1 := npDelete_where_eq_maskFilter (-1) b.rect b.npr (by omega)
    have d2 := npDelete_where_eq_maskFilter (-1) b.rect b.fp (by omega)
    have d3 := npDelete_where_eq_maskFilter (-1) b.rect b.image (by omega)
    have d4 := npDelete_where_eq_maskFilter (-1) b.rect b.rect (by omega)
    have d5 := npDelete_where_eq_maskFilter (-1) b.rect b.project (by omega)
    have d6 := npDelete_where_eq_maskFilter (-1) b.rect b.mutator (by omega)
    simp only [d1, d2, d3, d4, d5, d6]
  · rw [if_neg hpos]
    have hc0 : countV (-1) b.rect = 0 := by omega
    have m1 := maskFilter_of_count_zero (-1) b.rect b.npr hc0 (by omega)
    have m2 := maskFilter_of_count_zero (-1) b.rect b.fp hc0 (by omega)
    have m3 := maskFilter_of_count_zero (-1) b.rect b.image hc0 (by omega)
    have m4 := maskFilter_of_count_zero (-1) b.rect b.rect hc0 (by omega)
    have m5 := maskFilter_of_count_zero (-1) b.rect b.project hc0 (by omega)
    have m6 := maskFilter_of_count_zero (-1) b.rect b.mutator hc0 (by omega)
    constructor
    · cases b
      simp only at m1 m2 m3 m4 m5 m6
      simp [m1, m2, m3, m4, m5, m6]
    · omega

theorem loadDataPart_ok_inv {cfg : Cfg} {rf : List Nat → List Nat} {rectArr : List Img}
    {fpParts : List (List Img)} {lines : List PyStr}
    {partsId : List (Int × (Int × Int))} {part : Int} {removeNull shuffle : Bool}
    {shuffler : Nat → List Nat} {res : BaseResult} {removed : Nat}
    (h : loadDataPart cfg rf rectArr fpParts lines partsId part removeNull shuffle shuffler
      = Except.ok (res, removed)) :
    ∃ b0, loadBase cfg rf rectArr fpParts lines partsId part = Except.ok b0 ∧
      removed = (if removeNull then removeNullStage b0 else (b0, 0)).2 ∧
      res = (if shuffle then
        shuffleStage (shuffler (if removeNull then removeNullStage b0 else (b0, 0)).1.npr.length)
          (if removeNull then removeNullStage b0 else (b0, 0)).1
      else (if removeNull then removeNullStage b0 else (b0, 0)).1) := by
  unfold loadDataPart at h
  obtain ⟨b0, hb0, h⟩ := exBind_ok h
  refine ⟨b0, hb0, ?_, ?_⟩
  · simp only [Except.ok.injEq, Prod.mk.injEq] at h
    exact h.2.symm
  · simp only [Except.ok.injEq, Prod.mk.injEq] at h
    exact h.1.symm

theorem loadPart_ok_inv {st : XYData} {part : Int} {xy : PyStr}
    {removeNull shuffle : Bool} {shX shY : Nat → List Nat} {bnd : Bundle}
    (h : loadPart st part xy removeNull shuffle shX shY = Except.ok bnd) :
    (∀ so, bnd.x = some so →
      ∃ br rem, loadDataPart st.cfg st.rf st.rectX st.fpartsX st.photoFilesX st.partsId part
          removeNull shuffle shX = Except.ok (br, rem)
        ∧ so.len = br.fp.length ∧ so.removed = rem ∧ so.res = br)
    ∧ (∀ so, bnd.y = some so →
      ∃ br rem, loadDataPart st.cfg st.rf st.rectY st.fpartsY st.photoFilesY st.partsId part
          removeNull shuffle shY = Except.ok (br, rem)
        ∧ so.len = br.fp.length ∧ so.removed = rem ∧ so.res = br) := by
  unfold loadPart at h
  by_cases hp : ¬ (1 ≤ part ∧ part ≤ st.numParts)
  · rw [if_pos hp] at h; simp at h
  · rw [if_neg hp] at h
    by_cases hxy : ¬ (xy = ("x".toList) ∨ xy = ("y".toList) ∨ xy = ("xy".toList))
    · rw [if_pos hxy] at h; simp at h
    · rw [if_neg hxy] at h
      obtain ⟨ox, hox, h⟩ := exBind_ok h
      obtain ⟨oy, hoy, h⟩ := exBind_ok h
      simp only [Except.ok.injEq] at h
      subst h
      constructor
      · intro so hso
        simp only at hso
        by_cases hcx : xy = ("x".toList) ∨ xy = ("xy".toList)
        · rw [if_pos hcx] at hox
          obtain ⟨pr, hpr, hpure⟩ := exMap_ok hox
          subst hso
          simp only [Option.some.injEq] at hpure
          exact ⟨pr.1, pr.2, by rw [hpr], by simp [hpure, streamOut],
            by simp [hpure, streamOut], by simp [hpure, streamOut]⟩
        · rw [if_neg hcx] at hox
          simp only [Except.ok.injEq] at hox
          rw [← hox] at hso
          simp at hso
      · intro so hso
        simp only at hso
        by_cases hcy : xy = ("y".toList) ∨ xy = ("xy".toList)
        · rw [if_pos hcy] at hoy
          obtain ⟨pr, hpr, hpure⟩ := exMap_ok hoy
          subst hso
          simp only [Option.some.injEq] at hpure
          exact ⟨pr.1, pr.2, by rw [hpr], by simp [hpure, streamOut],
            by simp [hpure, streamOut], by simp [hpure, streamOut]⟩
        · rw [if_neg hcy] at hoy
          simp only [Except.ok.injEq] at hoy
          rw [← hoy] at hso
          simp at hso

theorem loadDataPart_removeNull_spec {cfg : Cfg} {rf : List Nat → List Nat}
    {rectArr : List Img} {fpParts : List (List Img)} {lines : List PyStr}
    {partsId : List (Int × (Int × Int))} {part : Int} {shuffle : Bool}
    {shuffler : Nat → List Nat} {br : BaseResult} {rem : Nat}
    (h : loadDataPart cfg rf rectArr fpParts lines partsId part true shuffle shuffler
      = Except.ok (br, rem))
    (hsh : ∀ n, (shuffler n).Perm (List.range n)) :
    ((-1 : Int) ∉ br.rect) ∧
    ∀ ab, dictGet partsId part = some ab →
      br.fp.length + rem = (ab.2 + 1 - ab.1).toNat := by
  obtain ⟨b0, hb0, hrem, hres⟩ := loadDataPart_ok_inv h
  simp only [if_pos rfl, if_true] at hrem hres
  obtain ⟨ab, hab, l1, l2, l3, l4, l5, l6⟩ := loadBase_lengths hb0
  set n := (ab.2 + 1 - ab.1).toNat with hn
  obtain ⟨hstage, hcount⟩ := removeNullStage_spec l1 l2 l3 l4 l5 l6
  set b1 := (removeNullStage b0).1 with hb1
  have hb1rect : b1.rect = maskFilter (-1) b0.rect b0.rect := by rw [hstage]
  have hb1fp : b1.fp = maskFilter (-1) b0.rect b0.fp := by rw [hstage]
  have hb1npr : b1.npr = maskFilter (-1) b0.rect b0.npr := by rw [hstage]
  have hrect_len : b1.rect.length + countV (-1) b0.rect = n := by
    rw [hb1rect, ← l4]; exact maskFilter_length (-1) b0.rect b0.rect rfl
  have hfp_len : b1.fp.length + countV (-1) b0.rect = n := by
    rw [hb1fp, ← l4]; exact maskFilter_length (-1) b0.rect b0.fp (by omega)
  have hnpr_len : b1.npr.length + countV (-1) b0.rect = n := by
    rw [hb1npr, ← l4]; exact maskFilter_length (-1) b0.rect b0.npr (by omega)
  have hnone : (-1 : Int) ∉ b1.rect := by
    intro hmem
    rw [hb1rect] at hmem
    exact maskFilter_self_ne b0.rect (-1) hmem rfl
  have hrem' : rem = countV (-1) b0.rect := by rw [hrem, hcount]
  by_cases hsf : shuffle = true
  · rw [if_pos hsf] at hres
    set m := b1.npr.length with hm
    set idx := shuffler m with hidx
    have hperm : idx.Perm (List.range m) := hsh m
    have hidxlen : idx.length = m := by
      rw [hperm.length_eq, List.length_range]
    constructor
    · intro hmem
      rw [hres] at hmem
      have hsr : (shuffleStage idx b1).rect = applyShuffle idx 0 b1.rect := rfl
      rw [hsr] at hmem
      have hrlen : b1.rect.length = m := by omega
      have hp := applyShuffle_perm (0 : Int) b1.rect hrlen hperm
      exact hnone (hp.mem_iff.mp hmem)
    · intro ab' hab'
      rw [hab] at hab'
      obtain rfl := Option.some.injEq _ _ ▸ hab'
      have hsf' : (shuffleStage idx b1).fp = applyShuffle idx ⟨0, 0, none, []⟩ b1.fp := rfl
      rw [hres, hsf', applyShuffle_length, hidxlen]
      omega
  · simp only [Bool.not_eq_true] at hsf
    rw [hsf] at hres
    simp only [Bool.false_eq_true, if_neg, not_false_eq_true] at hres
    constructor
    · rw [hres]; exact hnone
    · intro ab' hab'
      rw [hab] at hab'
      obtain rfl := Option.some.injEq _ _ ▸ hab'
      rw [hres]
      omega

/-- Claim C1: with `remove_null=True`, for every valid part and stream
selector, every stream slot of the `load_part` bundle has a rect ID
array free of `-1`, and its removed counter plus its returned length
(the `x_len`/`y_len` field) equals the pre-filter length of the part
range. -/
theorem C1_remove_null_no_sentinel (st : XYData) (part : Int) (xy : PyStr)
    (shuffle : Bool) (shX shY : Nat → List Nat) (bnd : Bundle)
    (hload : loadPart st part xy true shuffle shX shY = Except.ok bnd)
    (hshX : ∀ n, (shX n).Perm (List.range n))
    (hshY : ∀ n, (shY n).Perm (List.range n)) :
    (∀ so, bnd.x = some so → ((-1 : Int) ∉ so.res.rect ∧
      ∀ ab, dictGet st.partsId part = some ab →
        so.len + so.removed = (ab.2 + 1 - ab.1).toNat))
    ∧ (∀ so, bnd.y = some so → ((-1 : Int) ∉ so.res.rect ∧
      ∀ ab, dictGet st.partsId part = some ab →
        so.len + so.removed = (ab.2 + 1 - ab.1).toNat)) := by
  obtain ⟨hx, hy⟩ := loadPart_ok_inv hload
  constructor
  · intro so hso
    obtain ⟨br, rem, hld, hlen, hrm, hre⟩ := hx so hso
    obtain ⟨hmem, hlens⟩ := loadDataPart_removeNull_spec hld hshX
    exact ⟨by rw [hre]; exact hmem,
      fun ab hab => by rw [hlen, hrm]; exact hlens ab hab⟩
  · intro so hso
    obtain ⟨br, rem, hld, hlen, hrm, hre⟩ := hy so hso
    obtain ⟨hmem, hlens⟩ := loadDataPart_removeNull_spec hld hshY
    exact ⟨by rw [hre]; exact hmem,
      fun ab hab => by rw [hlen, hrm]; exact hlens ab hab⟩

/-- Concrete 2x2 single-channel rect image with pixel values 0 and 1. -/
def wImg : Img := ⟨2, 2, none, [0, 1, 0, 1]⟩

/-- Concrete 2x2 single-channel floor photo. -/
def wFimg : Img := ⟨2, 2, none, [5, 5, 5, 5]⟩

/-- Concrete manifest lines: part 1 holds ids 0 and 1 (the second with a
null rect), part 2 holds id 2. -/
def wLines : List PyStr :=
  ["0,5-2-3-part1".toList, "1,[NULL]-6-2-3-part1".toList, "2,7-2-3-part2".toList]

/-- Concrete loader state over `wLines` with two parts. -/
def wSt : XYData :=
  ⟨⟨2, 2, 1, 1⟩, id, [wImg, wImg, wImg], [wImg, wImg, wImg],
   [[wFimg, wFimg], [wFimg]], [[wFimg, wFimg], [wFimg]],
   wLines, wLines, [(1, (0, 1)), (2, (2, 2))], 2⟩

/-- The stream output of loading part 1 of `wSt` with `remove_null`. -/
def wSo : StreamOut := ⟨1, 1, ⟨[[0, 255, 0, 255]], [wFimg], [0], [5], [2], [3]⟩⟩

/-- The bundle of loading part 1 of `wSt` with `remove_null`. -/
def wBundle : Bundle := ⟨some wSo, none, 1, "x".toList⟩

/-- Witness for C1: the theorem applied to the concrete loader state
`wSt`, part 1, stream `x`. -/
theorem C1_remove_null_no_sentinel_witness :
    ((-1 : Int) ∉ wSo.res.rect) ∧ wSo.len + wSo.removed = 2 := by
  have h := C1_remove_null_no_sentinel wSt 1 ("x".toList) false
    (fun n => List.range n) (fun n => List.range n) wBundle rfl
    (fun _ => List.Perm.refl _) (fun _ => List.Perm.refl _)
  obtain ⟨h1, h2⟩ := h.1 wSo rfl
  refine ⟨h1, ?_⟩
  have h3 := h2 (0, 1) rfl
  simpa using h3

theorem afterRemove_lengths {b0 : BaseResult} {n : Nat} (removeNull : Bool)
    (l1 : b0.npr.length = n) (l2 : b0.fp.length = n) (l3 : b0.image.length = n)
    (l4 : b0.rect.length = n) (l5 : b0.project.length = n) (l6 : b0.mutator.length = n) :
    ∃ m, (if removeNull then removeNullStage b0 else (b0, 0)).1.npr.length = m ∧
      (if removeNull then removeNullStage b0 else (b0, 0)).1.fp.length = m ∧
      (if removeNull then removeNullStage b0 else (b0, 0)).1.image.length = m ∧
      (if removeNull then removeNullStage b0 else (b0, 0)).1.rect.length = m ∧
      (if removeNull then removeNullStage b0 else (b0, 0)).1.project.length = m ∧
      (if removeNull then removeNullStage b0 else (b0, 0)).1.mutator.length = m := by
  cases removeNull with
  | false => exact ⟨n, by simpa, by simpa, by simpa, by simpa, by simpa, by simpa⟩
  | true =>
    simp only [if_pos, if_true]
    obtain ⟨hstage, _⟩ := removeNullStage_spec l1 l2 l3 l4 l5 l6
    rw [hstage]
    have c1 := maskFilter_length (-1) b0.rect b0.npr (by omega)
    have c2 := maskFilter_length (-1) b0.rect b0.fp (by omega)
    have c3 := maskFilter_length (-1) b0.rect b0.image (by omega)
    have c4 := maskFilter_length (-1) b0.rect b0.rect (by omega)
    have c5 := maskFilter_length (-1) b0.rect b0.project (by omega)
    have c6 := maskFilter_length (-1) b0.rect b0.mutator (by omega)
    refine ⟨n - countV (-1) b0.rect, ?_, ?_, ?_, ?_, ?_, ?_⟩ <;> simp only [] <;> omega

theorem loadDataPart_shuffle_rows {cfg : Cfg} {rf : List Nat → List Nat}
    {rectArr : List Img} {fpParts : List (List Img)} {lines : List PyStr}
    {partsId : List (Int × (Int × Int))} {part : Int} {removeNull : Bool}
    {shAny shuffler : Nat → List Nat} {b0r bsr : BaseResult} {rem0 rems : Nat}
    (h0 : loadDataPart cfg rf rectArr fpParts lines partsId part removeNull false shAny
      = Except.ok (b0r, rem0))
    (hs : loadDataPart cfg rf rectArr fpParts lines partsId part removeNull true shuffler
      = Except.ok (bsr, rems))
    (hperm : ∀ n, (shuffler n).Perm (List.range n)) :
    rems = rem0 ∧ bsr.fp.length = b0r.fp.length ∧ (rows bsr).Perm (rows b0r) := by
  obtain ⟨b0, hb0, hrem0, hres0⟩ := loadDataPart_ok_inv h0
  obtain ⟨b0', hb0', hrems, hress⟩ := loadDataPart_ok_inv hs
  rw [hb0] at hb0'
  have hbb : b0' = b0 := (Except.ok.inj hb0').symm
  rw [hbb] at hrems hress
  obtain ⟨ab, _, l1, l2, l3, l4, l5, l6⟩ := loadBase_lengths hb0
  obtain ⟨m, m1, m2, m3, m4, m5, m6⟩ :=
    afterRemove_lengths removeNull l1 l2 l3 l4 l5 l6
  simp only [Bool.false_eq_true, if_neg, not_false_eq_true] at hres0
  simp only [if_pos, if_true] at hress
  have hrows1 : (rows (if removeNull then removeNullStage b0 else (b0, 0)).1).length = m :=
    rows_length_of_lengths m1 m2 m3 m4 m5 m6
  have hidxmem :
      ∀ i ∈ shuffler (if removeNull then removeNullStage b0 else (b0, 0)).1.npr.length,
        i < m := by
    intro i hi
    have hm := (hperm _).mem_iff.mp hi
    rw [List.mem_range] at hm
    omega
  have hshr : rows bsr
      = applyShuffle (shuffler (if removeNull then removeNullStage b0 else (b0, 0)).1.npr.length)
          rowDflt (rows (if removeNull then removeNullStage b0 else (b0, 0)).1) := by
    rw [hress]
    exact shuffleStage_rows m1 m2 m3 m4 m5 m6 hidxmem
  have hperm1 :
      (shuffler (if removeNull then removeNullStage b0 else (b0, 0)).1.npr.length).Perm
        (List.range m) := by
    rw [m1]; exact hperm m
  have hfinal : (rows bsr).Perm (rows (if removeNull then removeNullStage b0 else (b0, 0)).1) := by
    rw [hshr]
    exact applyShuffle_perm rowDflt _ hrows1 hperm1
  have hfplen : bsr.fp.length = b0r.fp.length := by
    have hsfp : bsr.fp
        = applyShuffle (shuffler (if removeNull then removeNullStage b0 else (b0, 0)).1.npr.length)
            ⟨0, 0, none, []⟩ (if removeNull then removeNullStage b0 else (b0, 0)).1.fp := by
      rw [hress]; rfl
    rw [hsfp, applyShuffle_length, hperm1.length_eq, List.length_range, hres0]
    omega
  refine ⟨by rw [hrems, hrem0], hfplen, ?_⟩
  rw [hres0]
  exact hfinal

/-- Claim C2: `load_part` with `shuffle=True` returns, per stream, a
single common permutation of the unshuffled result: the removed counter
is unchanged and the multiset of lockstep rows (rect image, floor photo,
image/rect/project/mutator ids) is preserved — only the order changes. -/
theorem C2_shuffle_common_permutation (st : XYData) (part : Int) (xy : PyStr)
    (removeNull : Bool) (shX shY shX0 shY0 : Nat → List Nat) (bnd1 bnd0 : Bundle)
    (h1 : loadPart st part xy removeNull true shX shY = Except.ok bnd1)
    (h0 : loadPart st part xy removeNull false shX0 shY0 = Except.ok bnd0)
    (hshX : ∀ n, (shX n).Perm (List.range n))
    (hshY : ∀ n, (shY n).Perm (List.range n)) :
    (∀ so1 so0, bnd1.x = some so1 → bnd0.x = some so0 →
      so1.removed = so0.removed ∧ (rows so1.res).Perm (rows so0.res))
    ∧ (∀ so1 so0, bnd1.y = some so1 → bnd0.y = some so0 →
      so1.removed = so0.removed ∧ (rows so1.res).Perm (rows so0.res)) := by
  obtain ⟨hx1, hy1⟩ := loadPart_ok_inv h1
  obtain ⟨hx0, hy0⟩ := loadPart_ok_inv h0
  constructor
  · intro so1 so0 hs1 hs0
    obtain ⟨br1, rem1, hld1, hlen1, hrm1, hre1⟩ := hx1 so1 hs1
    obtain ⟨br0, rem0, hld0, hlen0, hrm0, hre0⟩ := hx0 so0 hs0
    obtain ⟨hrr, _, hpp⟩ := loadDataPart_shuffle_rows hld0 hld1 hshX
    exact ⟨by rw [hrm1, hrm0, hrr], by rw [hre1, hre0]; exact hpp⟩
  · intro so1 so0 hs1 hs0
    obtain ⟨br1, rem1, hld1, hlen1, hrm1, hre1⟩ := hy1 so1 hs1
    obtain ⟨br0, rem0, hld0, hlen0, hrm0, hre0⟩ := hy0 so0 hs0
    obtain ⟨hrr, _, hpp⟩ := loadDataPart_shuffle_rows hld0 hld1 hshY
    exact ⟨by rw [hrm1, hrm0, hrr], by rw [hre1, hre0]; exact hpp⟩

/-- The stream output of a shuffled (reversed) load of part 1 of `wSt`. -/
def wShuffledSo : StreamOut :=
  ⟨2, 0, ⟨[[0, 255, 0, 255], [0, 255, 0, 255]], [wFimg, wFimg], [1, 0], [-1, 5], [2, 2], [3, 3]⟩⟩

/-- The stream output of an unshuffled load of part 1 of `wSt`. -/
def wBaseSo : StreamOut :=
  ⟨2, 0, ⟨[[0, 255, 0, 255], [0, 255, 0, 255]], [wFimg, wFimg], [0, 1], [5, -1], [2, 2], [3, 3]⟩⟩

/-- The bundle of the shuffled load. -/
def wShuffledBundle : Bundle := ⟨some wShuffledSo, none, 1, "x".toList⟩

/-- The bundle of the unshuffled load. -/
def wBaseBundle : Bundle := ⟨some wBaseSo, none, 1, "x".toList⟩

/-- Witness for C2: the theorem applied to a concrete shuffled load of
part 1 of `wSt` against its unshuffled counterpart. -/
theorem C2_shuffle_common_permutation_witness :
    wShuffledSo.removed = wBaseSo.removed ∧ (rows wShuffledSo.res).Perm (rows wBaseSo.res) := by
  have h := C2_shuffle_common_permutation wSt 1 ("x".toList) false
    (fun n => (List.range n).reverse) (fun n => List.range n)
    (fun n => List.range n) (fun n => List.range n)
    wShuffledBundle wBaseBundle rfl rfl
    (fun _ => List.reverse_perm _) (fun _ => List.Perm.refl _)
  exact h.1 wShuffledSo wBaseSo rfl rfl

theorem loadDataPart_false_of_base {cfg : Cfg} {rf : List Nat → List Nat}
    {rectArr : List Img} {fpParts : List (List Img)} {lines : List PyStr}
    {partsId : List (Int × (Int × Int))} {part : Int} {b0 : BaseResult}
    (removeNull : Bool) (sh : Nat → List Nat)
    (hb0 : loadBase cfg rf rectArr fpParts lines partsId part = Except.ok b0) :
    loadDataPart cfg rf rectArr fpParts lines partsId part removeNull false sh
      = Except.ok ((if removeNull then removeNullStage b0 else (b0, 0)).1,
                   (if removeNull then removeNullStage b0 else (b0, 0)).2) := by
  unfold loadDataPart
  rw [hb0]
  simp [Bind.bind, Except.bind]

/-- Counterexample to C3 as stated: with `shuffle=True` two successive
`load_part` calls with identical arguments over the same on-disk data
draw independent random permutations and return different arrays — here
the two drawn permutations of `range 2` are the reversal and the
identity, both valid draws of `np.random.shuffle`, and the resulting
bundles differ. -/
theorem C3_counterexample :
    ((List.range 2).reverse.Perm (List.range 2) ∧ (List.range 2).Perm (List.range 2))
    ∧ loadPart wSt 1 ("x".toList) false true (fun n => (List.range n).reverse)
        (fun n => List.range n)
      ≠ loadPart wSt 1 ("x".toList) false true (fun n => List.range n)
        (fun n => List.range n) := by
  refine ⟨⟨by decide, by decide⟩, ?_⟩
  have h1 : loadPart wSt 1 ("x".toList) false true (fun n => (List.range n).reverse)
      (fun n => List.range n) = Except.ok wShuffledBundle := by rfl
  have h2 : loadPart wSt 1 ("x".toList) false true (fun n => List.range n)
      (fun n => List.range n) = Except.ok wBaseBundle := by rfl
  rw [h1, h2]
  intro h
  have hb := Except.ok.inj h
  exact absurd hb (by decide)

/-- Claim C3 (amended): `load_part` is deterministic given the drawn
permutations — with `shuffle=False` the result does not depend on the
random source at all, and with `shuffle=True` two calls with identical
arguments agree up to the drawn permutations: equal removed counters,
equal lengths, and permutation-equal multisets of lockstep rows. -/
theorem C3_determinism_up_to_shuffle (st : XYData) (part : Int) (xy : PyStr)
    (removeNull : Bool) (shX shY shX' shY' : Nat → List Nat) (bnd bnd' : Bundle)
    (h : loadPart st part xy removeNull true shX shY = Except.ok bnd)
    (h' : loadPart st part xy removeNull true shX' shY' = Except.ok bnd')
    (hshX : ∀ n, (shX n).Perm (List.range n))
    (hshY : ∀ n, (shY n).Perm (List.range n))
    (hshX' : ∀ n, (shX' n).Perm (List.range n))
    (hshY' : ∀ n, (shY' n).Perm (List.range n)) :
    (loadPart st part xy removeNull false shX shY
      = loadPart st part xy removeNull false shX' shY')
    ∧ (∀ so so', bnd.x = some so → bnd'.x = some so' →
        so.removed = so'.removed ∧ so.len = so'.len ∧ (rows so.res).Perm (rows so'.res))
    ∧ (∀ so so', bnd.y = some so → bnd'.y = some so' →
        so.removed = so'.removed ∧ so.len = so'.len ∧ (rows so.res).Perm (rows so'.res)) := by
  obtain ⟨hx, hy⟩ := loadPart_ok_inv h
  obtain ⟨hx', hy'⟩ := loadPart_ok_inv h'
  refine ⟨?_, ?_, ?_⟩
  · unfold loadPart
    by_cases hp : ¬ (1 ≤ part ∧ part ≤ st.numParts)
    · rw [if_pos hp, if_pos hp]
    · rw [if_neg hp, if_neg hp]
      by_cases hxy : ¬ (xy = ("x".toList) ∨ xy = ("y".toList) ∨ xy = ("xy".toList))
      · rw [if_pos hxy, if_pos hxy]
      · rw [if_neg hxy, if_neg hxy]
        have ex : loadDataPart st.cfg st.rf st.rectX st.fpartsX st.photoFilesX st.partsId part
            removeNull false shX
            = loadDataPart st.cfg st.rf st.rectX st.fpartsX st.photoFilesX st.partsId part
              removeNull false shX' := by
          unfold loadDataPart
          cases loadBase st.cfg st.rf st.rectX st.fpartsX st.photoFilesX st.partsId part with
          | error e => rfl
          | ok b0 => simp [Bind.bind, Except.bind]
        have ey : loadDataPart st.cfg st.rf st.rectY st.fpartsY st.photoFilesY st.partsId part
            removeNull false shY
            = loadDataPart st.cfg st.rf st.rectY st.fpartsY st.photoFilesY st.partsId part
              removeNull false shY' := by
          unfold loadDataPart
          cases loadBase st.cfg st.rf st.rectY st.fpartsY st.photoFilesY st.partsId part with
          | error e => rfl
          | ok b0 => simp [Bind.bind, Except.bind]
        rw [ex, ey]
  · intro so so' hso hso'
    obtain ⟨br, rem, hld, hlen, hrm, hre⟩ := hx so hso
    obtain ⟨br', rem', hld', hlen', hrm', hre'⟩ := hx' so' hso'
    obtain ⟨b0, hb0, _, _⟩ := loadDataPart_ok_inv hld
    have hfalse := loadDataPart_false_of_base removeNull shX hb0
    obtain ⟨e1, e2, e3⟩ := loadDataPart_shuffle_rows hfalse hld hshX
    obtain ⟨e1', e2', e3'⟩ := loadDataPart_shuffle_rows hfalse hld' hshX'
    refine ⟨by rw [hrm, hrm', e1, e1'], ?_, ?_⟩
    · rw [hlen, hlen', e2, e2']
    · rw [hre, hre']
      exact e3.trans e3'.symm
  · intro so so' hso hso'
    obtain ⟨br, rem, hld, hlen, hrm, hre⟩ := hy so hso
    obtain ⟨br', rem', hld', hlen', hrm', hre'⟩ := hy' so' hso'
    obtain ⟨b0, hb0, _, _⟩ := loadDataPart_ok_inv hld
    have hfalse := loadDataPart_false_of_base removeNull shY hb0
    obtain ⟨e1, e2, e3⟩ := loadDataPart_shuffle_rows hfalse hld hshY
    obtain ⟨e1', e2', e3'⟩ := loadDataPart_shuffle_rows hfalse hld' hshY'
    refine ⟨by rw [hrm, hrm', e1, e1'], ?_, ?_⟩
    · rw [hlen, hlen', e2, e2']
    · rw [hre, hre']
      exact e3.trans e3'.symm

/-- Witness for the amended C3: the theorem applied to two concrete
shuffled loads of part 1 of `wSt` with different drawn permutations. -/
theorem C3_determinism_up_to_shuffle_witness :
    wShuffledSo.len = wBaseSo.len ∧ (rows wShuffledSo.res).Perm (rows wBaseSo.res) := by
  have h := C3_determinism_up_to_shuffle wSt 1 ("x".toList) false
    (fun n => (List.range n).reverse) (fun n => List.range n)
    (fun n => List.range n) (fun n => List.range n)
    wShuffledBundle wBaseBundle rfl rfl
    (fun _ => List.reverse_perm _) (fun _ => List.Perm.refl _)
    (fun _ => List.Perm.refl _) (fun _ => List.Perm.refl _)
  obtain ⟨_, hlen, hperm⟩ := h.2.1 wShuffledSo wBaseSo rfl rfl
  exact ⟨hlen, hperm⟩

theorem optBind_some {α β : Type} {o : Option α} {f : α → Option β} {y : β}
    (h : (o >>= f) = some y) : ∃ x, o = some x ∧ f x = some y := by
  cases o with
  | none => simp [Bind.bind, Option.bind] at h
  | some x => exact ⟨x, rfl, by simpa [Bind.bind, Option.bind] using h⟩

/-- Does the rect-id field of the line (field 0 of the hyphen split of
the second comma field) strip to the `[NULL]` marker? This is the
branch condition used by `_load_id`. -/
def rectFieldIsNull (line : PyStr) : Bool :=
  match (pySplit [','] line).get? 1 with
  | none => false
  | some f1 => ((pySplit ['-'] (pyTrim f1)).get? 0).map pyTrim == some nullTok

/-- Counterexample to C4 as stated: on the line `7,5-2-3-part1[NULL]`
the null marker appears in the raw line but not in the rect-id field;
`_load_id` does not shift (project id 2) while `_get_project_id` does
shift (project id 3), so the two extractions disagree although both
succeed. -/
theorem C4_counterexample :
    parseLineIds ("7,5-2-3-part1[NULL]".toList) = some (7, 5, 2, 3)
    ∧ getProjectId ("7,5-2-3-part1[NULL]".toList) = some 3
    ∧ rectFieldIsNull ("7,5-2-3-part1[NULL]".toList) = false := by
  exact ⟨rfl, rfl, rfl⟩

/-- Claim C4 (amended): the two project-id extractions agree on every
manifest line in which the null marker occurs in the raw line exactly
when it occupies (strips to) the rect-id field; `_get_project_id`
shifts on mere occurrence anywhere in the line, `_load_id` only on the
rect-id field, so the agreement needs that equivalence. -/
theorem C4_project_id_agreement (line : PyStr) (t : Int × Int × Int × Int)
    (hp : parseLineIds line = some t)
    (hiff : containsSub nullTok line = rectFieldIsNull line) :
    getProjectId line = some t.2.2.1 := by
  unfold parseLineIds at hp
  obtain ⟨imageId, himg, hp⟩ := optBind_some hp
  obtain ⟨f1, hf1, hp⟩ := optBind_some hp
  simp only at hp
  have hrfn : rectFieldIsNull line
      = (((pySplit ['-'] (pyTrim f1)).get? 0).map pyTrim == some nullTok) := by
    unfold rectFieldIsNull
    rw [hf1]
  by_cases hc : ((pySplit ['-'] (pyTrim f1)).get? 0).map pyTrim = some nullTok
  · rw [if_pos hc] at hp
    obtain ⟨proj, hproj, hp⟩ := optBind_some hp
    obtain ⟨mu, hmu, hp⟩ := optBind_some hp
    simp only [pure, Option.some.injEq] at hp
    have hcs : containsSub nullTok line = true := by
      rw [hiff, hrfn]
      exact beq_iff_eq.mpr hc
    unfold getProjectId
    rw [hf1]
    simp only [hcs, if_true, if_pos]
    rw [hproj, ← hp]
  · rw [if_neg hc] at hp
    obtain ⟨rectId, hrect, hp⟩ := optBind_some hp
    obtain ⟨proj, hproj, hp⟩ := optBind_some hp
    obtain ⟨mu, hmu, hp⟩ := optBind_some hp
    simp only [pure, Option.some.injEq] at hp
    have hcs : containsSub nullTok line = false := by
      rw [hiff, hrfn]
      exact beq_eq_false_iff_ne.mpr hc
    unfold getProjectId
    rw [hf1]
    simp only [hcs, Bool.false_eq_true, if_neg, not_false_eq_true, if_false]
    rw [hproj, ← hp]

/-- Witness for the amended C4: a line whose rect-id field is the null
marker, on which both extractions give project id 2. -/
theorem C4_project_id_agreement_witness :
    getProjectId ("7,[NULL]-5-2-3-part1".toList) = some 2 := by
  have h := C4_project_id_agreement ("7,[NULL]-5-2-3-part1".toList) (7, -1, 2, 3) rfl rfl
  simpa using h

theorem mem_keys_dictInsert {τ : Type} {x k : Int} {v : τ} :
    ∀ (d : List (Int × τ)),
      x ∈ (dictInsert d k v).map Prod.fst ↔ x ∈ d.map Prod.fst ∨ x = k := by
  intro d
  induction d with
  | nil => simp [dictInsert]
  | cons e rest ih =>
    obtain ⟨k0, v0⟩ := e
    by_cases hk : k0 = k
    · subst hk
      have hstep : dictInsert ((k0, v0) :: rest) k0 v = (k0, v) :: rest := by
        simp [dictInsert]
      rw [hstep]
      simp only [List.map_cons, List.mem_cons]
      tauto
    · simp only [dictInsert, hk, if_neg, not_false_eq_true, List.map_cons, List.mem_cons, ih]
      tauto

theorem dictInsert_nodupKeys {τ : Type} {k : Int} {v : τ} :
    ∀ (d : List (Int × τ)), (d.map Prod.fst).Nodup →
      ((dictInsert d k v).map Prod.fst).Nodup := by
  intro d
  induction d with
  | nil => simp [dictInsert]
  | cons e rest ih =>
    obtain ⟨k0, v0⟩ := e
    intro hnd
    simp only [List.map_cons, List.nodup_cons] at hnd
    by_cases hk : k0 = k
    · subst hk
      have hstep : dictInsert ((k0, v0) :: rest) k0 v = (k0, v) :: rest := by
        simp [dictInsert]
      rw [hstep]
      simp only [List.map_cons, List.nodup_cons]
      exact hnd
    · simp only [dictInsert, hk, if_neg, not_false_eq_true, List.map_cons, List.nodup_cons]
      refine ⟨?_, ih hnd.2⟩
      rw [mem_keys_dictInsert rest]
      push_neg
      exact ⟨hnd.1, hk⟩

theorem dictGet_of_get? {τ : Type} :
    ∀ (d : List (Int × τ)) (i : Nat) (e : Int × τ),
      (d.map Prod.fst).Nodup → d.get? i = some e → dictGet d e.1 = some e.2 := by
  intro d
  induction d with
  | nil => intro i e _ hg; simp at hg
  | cons e0 rest ih =>
    intro i e hnd hg
    obtain ⟨k0, v0⟩ := e0
    simp only [List.map_cons, List.nodup_cons] at hnd
    cases i with
    | zero =>
      simp only [List.get?_cons_zero, Option.some.injEq] at hg
      subst hg
      simp [dictGet]
    | succ i' =>
      simp only [List.get?_cons_succ] at hg
      have hmem : e ∈ rest := List.get?_mem hg
      have hke : k0 ≠ e.1 := by
        intro hEq
        apply hnd.1
        rw [hEq]
        exact List.mem_map_of_mem Prod.fst hmem
      simp only [dictGet, hke, if_neg, not_false_eq_true]
      exact ih i' e hnd.2 hg

theorem optFoldl_inv {σ χ : Type} {f : σ → χ → Option σ} (P : σ → Prop)
    (hf : ∀ s x s', f s x = some s' → P s → P s') :
    ∀ (l : List χ) (s s' : σ), optFoldl f s l = some s' → P s → P s' := by
  intro l
  induction l with
  | nil =>
    intro s s' h hP
    simp only [optFoldl, Option.some.injEq] at h
    rw [← h]; exact hP
  | cons x xs ih =>
    intro s s' h hP
    simp only [optFoldl] at h
    cases hfx : f s x with
    | none => rw [hfx] at h; simp at h
    | some s1 =>
      rw [hfx] at h
      exact ih s1 s' h (hf s x s1 hfx hP)

theorem stepLine_partsid_nodup {st st' : ParseSt} {j : PyStr}
    (h : stepLine st j = some st')
    (hnd : (st.partsid.map Prod.fst).Nodup) :
    (st'.partsid.map Prod.fst).Nodup := by
  unfold stepLine at h
  obtain ⟨pj, hpj, h⟩ := optBind_some h
  obtain ⟨st1, hst1, h⟩ := optBind_some h
  obtain ⟨lid, hlid, h⟩ := optBind_some h
  obtain ⟨prid, hprid, h⟩ := optBind_some h
  obtain ⟨cur, hcur, h⟩ := optBind_some h
  simp only [Option.some.injEq] at h
  have hst'par : st'.partsid = st1.partsid := by rw [← h]
  rw [hst'par]
  unfold stepBoundary at hst1
  by_cases hb : pj ≠ st.lastPart
  · rw [if_pos hb] at hst1
    obtain ⟨lpid, hlpid, hmap⟩ := Option.map_eq_some'.mp hst1
    rw [← hmap]
    exact dictInsert_nodupKeys st.partsid hnd
  · rw [if_neg hb] at hst1
    simp only [Option.some.injEq] at hst1
    rw [← hst1]
    exact hnd

theorem checksFor_ok {partsid : List (Int × (Int × Int))} {keys : List Int} :
    ∀ {l : List Nat}, checksFor partsid keys l = Except.ok () →
      ∀ k ∈ l, checkAt partsid keys k = Except.ok () := by
  intro l
  induction l with
  | nil => intro _ k hk; simp at hk
  | cons a rest ih =>
    intro h k hk
    simp only [checksFor] at h
    cases hca : checkAt partsid keys a with
    | error e => rw [hca] at h; simp at h
    | ok u =>
      rcases List.mem_cons.mp hk with rfl | hk'
      · cases u; exact hca
      · rw [hca] at h
        exact ih h k hk'

theorem checkAt_ok {partsid : List (Int × (Int × Int))} {keys : List Int} {k : Nat}
    (h : checkAt partsid keys k = Except.ok ()) :
    ∃ p q vp vq, keys.get? k = some p ∧ keys.get? (k + 1) = some q ∧
      dictGet partsid p = some vp ∧ dictGet partsid q = some vq ∧
      q - p = 1 ∧ vq.1 = vp.2 + 1 ∧ vp.2 - vp.1 ≥ 1 := by
  unfold checkAt at h
  obtain ⟨p, hp, h⟩ := exBind_ok h
  obtain ⟨q, hq, h⟩ := exBind_ok h
  obtain ⟨vp, hvp, h⟩ := exBind_ok h
  obtain ⟨vq, hvq, h⟩ := exBind_ok h
  by_cases h1 : q - p ≠ 1
  · rw [if_pos h1] at h; simp at h
  · rw [if_neg h1] at h
    by_cases h2 : vq.1 ≠ vp.2 + 1
    · rw [if_pos h2] at h; simp at h
    · rw [if_neg h2] at h
      by_cases h3 : vp.2 - vp.1 < 1
      · rw [if_pos h3] at h; simp at h
      · push_neg at h1 h2 h3
        exact ⟨p, q, vp, vq, toExceptMsg_ok hp, toExceptMsg_ok hq,
          toExceptMsg_ok hvp, toExceptMsg_ok hvq, h1, h2, h3⟩

theorem loadPhotoParts_ok_inv {rawLines files : List PyStr}
    {partsid : List (Int × (Int × Int))} {projectid : List (Int × List Int)}
    (h : loadPhotoParts rawLines = Except.ok (files, partsid, projectid)) :
    ∃ stF : ParseSt,
      optFoldl stepLine ⟨[], [(0, [])], 0, 0, 0⟩
        (rawLines.filterMap (fun j =>
          let n := pyTrim j
          if n = ("ID,File".toList) ∨ n.length = 0 then none else some n)) = some stF
      ∧ partsid = dictErase (dictInsert stF.partsid stF.lastPart (stF.lastPartId, stF.lastId)) 0
      ∧ checksFor partsid (partsid.map Prod.fst)
          (List.range ((partsid.map Prod.fst).length - 1)) = Except.ok () := by
  unfold loadPhotoParts at h
  obtain ⟨lastLine, hlast, h⟩ := exBind_ok h
  obtain ⟨totalParts, htp, h⟩ := exBind_ok h
  by_cases htp1 : totalParts ≤ 1
  · rw [if_pos htp1] at h; simp at h
  · rw [if_neg htp1] at h
    obtain ⟨stF, hstF, h⟩ := exBind_ok h
    obtain ⟨u0, _, h⟩ := exBind_ok h
    obtain ⟨u1, _, h⟩ := exBind_ok h
    by_cases hcnt : (((dictErase (dictInsert stF.partsid stF.lastPart
        (stF.lastPartId, stF.lastId)) 0).map Prod.fst).length : Int) ≠ totalParts
    · rw [if_pos hcnt] at h
      simp at h
    · rw [if_neg hcnt] at h
      obtain ⟨u2, hch, h⟩ := exBind_ok h
      simp only [Except.ok.injEq, Prod.mk.injEq] at h
      obtain ⟨hfiles, hpid, hproj⟩ := h
      subst hpid
      refine ⟨stF, toExceptMsg_ok hstF, rfl, ?_⟩
      cases u2
      exact hch

theorem getD_of_get? {χ : Type} {l : List χ} {i : Nat} {e : χ} (d : χ)
    (h : l.get? i = some e) : l.getD i d = e := by
  simp [List.getD_eq_getElem?_getD, ← List.get?_eq_getElem?, h]

/-- Shared consequence of a successful `_load_photo_parts` run: part 0
is gone, and for every index but the last, the validation loop enforced
the key increment, the range continuity, and the range size. -/
theorem loadPhotoParts_consecutive {rawLines files : List PyStr}
    {partsid : List (Int × (Int × Int))} {projectid : List (Int × List Int)}
    (h : loadPhotoParts rawLines = Except.ok (files, partsid, projectid)) :
    (∀ e ∈ partsid, e.1 ≠ 0) ∧
    ∀ i, i + 1 < partsid.length →
      (partsid.getD (i + 1) (0, (0, 0))).1 - (partsid.getD i (0, (0, 0))).1 = 1
      ∧ (partsid.getD (i + 1) (0, (0, 0))).2.1 = (partsid.getD i (0, (0, 0))).2.2 + 1
      ∧ (partsid.getD i (0, (0, 0))).2.2 - (partsid.getD i (0, (0, 0))).2.1 ≥ 1 := by
  obtain ⟨stF, hfold, hpid, hch⟩ := loadPhotoParts_ok_inv h
  have hndF : (stF.partsid.map Prod.fst).Nodup := by
    refine optFoldl_inv (fun s => (s.partsid.map Prod.fst).Nodup) ?_ _ _ _ hfold ?_
    · intro s x s' hs hP
      exact stepLine_partsid_nodup hs hP
    · simp
  have hnd1 : ((dictInsert stF.partsid stF.lastPart
      (stF.lastPartId, stF.lastId)).map Prod.fst).Nodup :=
    dictInsert_nodupKeys stF.partsid hndF
  have hnd : (partsid.map Prod.fst).Nodup := by
    rw [hpid]
    exact List.Nodup.sublist (List.Sublist.map Prod.fst (List.filter_sublist _)) hnd1
  constructor
  · intro e he
    rw [hpid] at he
    have hmf := List.mem_filter.mp he
    have := hmf.2
    simp only [Bool.not_eq_eq_eq_not, Bool.not_true, decide_eq_false_iff_not] at this
    exact this
  · intro i hi
    have hklen : (partsid.map Prod.fst).length = partsid.length := List.length_map _ _
    have hmem : i ∈ List.range ((partsid.map Prod.fst).length - 1) := by
      rw [List.mem_range, hklen]
      omega
    have hca := checksFor_ok hch i hmem
    obtain ⟨p, q, vp, vq, hp, hq, hvp, hvq, h1, h2, h3⟩ := checkAt_ok hca
    rw [List.get?_eq_getElem?, List.getElem?_map, ← List.get?_eq_getElem?] at hp hq
    obtain ⟨ei, hei, heip⟩ := Option.map_eq_some'.mp hp
    obtain ⟨ei1, hei1, hei1p⟩ := Option.map_eq_some'.mp hq
    have hgv : dictGet partsid ei.1 = some ei.2 := dictGet_of_get? partsid i ei hnd hei
    have hgv1 : dictGet partsid ei1.1 = some ei1.2 :=
      dictGet_of_get? partsid (i + 1) ei1 hnd hei1
    rw [heip] at hgv
    rw [hei1p] at hgv1
    rw [hgv] at hvp
    rw [hgv1] at hvq
    have hvpe : vp = ei.2 := (Option.some.inj hvp).symm
    have hvqe : vq = ei1.2 := (Option.some.inj hvq).symm
    rw [getD_of_get? (0, (0, 0)) hei, getD_of_get? (0, (0, 0)) hei1]
    subst hvpe hvqe
    rw [← heip, ← hei1p] at h1
    exact ⟨h1, h2, h3⟩

/-- Claim C6: every successful `_load_photo_parts` run returns a
PartRange mapping with no key 0 whose consecutive entries have part
keys differing by exactly 1 and ranges that continue one past the
previous part's end (contiguous, gapless, ascending, non-overlapping
ranges). -/
theorem C6_partrange_contiguous (rawLines files : List PyStr)
    (partsid : List (Int × (Int × Int))) (projectid : List (Int × List Int))
    (h : loadPhotoParts rawLines = Except.ok (files, partsid, projectid)) :
    (∀ e ∈ partsid, e.1 ≠ 0) ∧
    ∀ i, i + 1 < partsid.length →
      (partsid.getD (i + 1) (0, (0, 0))).1 - (partsid.getD i (0, (0, 0))).1 = 1
      ∧ (partsid.getD (i + 1) (0, (0, 0))).2.1 = (partsid.getD i (0, (0, 0))).2.2 + 1 := by
  obtain ⟨h0, hcons⟩ := loadPhotoParts_consecutive h
  exact ⟨h0, fun i hi => ⟨(hcons i hi).1, (hcons i hi).2.1⟩⟩

/-- The example manifest of the C6/C5 witnesses: two lines in part 1,
one line in part 2. -/
def exManifest : List PyStr :=
  ["ID,File".toList, "0,1-1-1-part1".toList, "1,2-1-1-part1".toList, "2,3-1-1-part2".toList]

/-- Witness for C6: the theorem applied to the concrete manifest
`exManifest`, at index 0. -/
theorem C6_partrange_contiguous_witness :
    ([(1, ((0 : Int), (1 : Int))), (2, ((2 : Int), (2 : Int)))].getD 1 (0, (0, 0))).1
        - ([((1 : Int), ((0 : Int), (1 : Int))), (2, (2, 2))].getD 0 (0, (0, 0))).1 = 1 := by
  have h := C6_partrange_contiguous exManifest
    ["0,1-1-1-part1".toList, "1,2-1-1-part1".toList, "2,3-1-1-part2".toList]
    [(1, (0, 1)), (2, (2, 2))] [(1, [1]), (2, [1])] rfl
  exact (h.2 0 (by decide)).1

/-- Counterexample to C5 as stated: in `exManifest` the final part
(part 2) covers the single id 2, so its sealed range has
`last - first = 0 < 1`; the claim says the parser must fail with a
DataIntegrityError, but the run succeeds — the size check of the
validation loop skips the final part. -/
theorem C5_counterexample :
    loadPhotoParts exManifest = Except.ok
      (["0,1-1-1-part1".toList, "1,2-1-1-part1".toList, "2,3-1-1-part2".toList],
       [(1, (0, 1)), (2, (2, 2))], [(1, [1]), (2, [1])]) := by
  rfl

/-- Claim C5 (amended): the at-least-2-ids check is enforced for every
part except the final one: a successful run guarantees
`last - first ≥ 1` for every non-final entry of the returned mapping,
and a manifest whose final part has a single id still parses. -/
theorem C5_part_size_check_nonfinal (rawLines files : List PyStr)
    (partsid : List (Int × (Int × Int))) (projectid : List (Int × List Int))
    (h : loadPhotoParts rawLines = Except.ok (files, partsid, projectid)) :
    ∀ i, i + 1 < partsid.length →
      (partsid.getD i (0, (0, 0))).2.2 - (partsid.getD i (0, (0, 0))).2.1 ≥ 1 := by
  obtain ⟨_, hcons⟩ := loadPhotoParts_consecutive h
  exact fun i hi => (hcons i hi).2.2

/-- Witness for the amended C5: the theorem applied to `exManifest`,
whose non-final part 1 has range (0, 1) of size 2. -/
theorem C5_part_size_check_nonfinal_witness :
    ([((1 : Int), ((0 : Int), (1 : Int))), (2, (2, 2))].getD 0 (0, (0, 0))).2.2
      - ([((1 : Int), ((0 : Int), (1 : Int))), (2, (2, 2))].getD 0 (0, (0, 0))).2.1 ≥ 1 := by
  have h := C5_part_size_check_nonfinal exManifest
    ["0,1-1-1-part1".toList, "1,2-1-1-part1".toList, "2,3-1-1-part2".toList]
    [(1, (0, 1)), (2, (2, 2))] [(1, [1]), (2, [1])] rfl
  exact h 0 (by decide)

theorem listMax_ge :
    ∀ (l : List Nat) (m : Nat), listMax l = some m → ∀ v ∈ l, v ≤ m := by
  intro l
  induction l with
  | nil => intro m _ v hv; simp at hv
  | cons x xs ih =>
    intro m h v hv
    simp only [listMax, Option.some.injEq] at h
    cases hmx : listMax xs with
    | none =>
      rw [hmx] at h
      simp only at h
      rcases List.mem_cons.mp hv with rfl | hv'
      · omega
      · cases xs with
        | nil => simp at hv'
        | cons y ys => simp [listMax] at hmx
    | some m' =>
      rw [hmx] at h
      simp only at h
      rcases List.mem_cons.mp hv with rfl | hv'
      · rw [← h]; exact Nat.le_max_left _ _
      · have hvm := ih m' hmx v hv'
        rw [← h]
        exact le_trans hvm (Nat.le_max_right _ _)

theorem processRectImage_ok_inv {cfg : Cfg} {rf : List Nat → List Nat} {img : Img}
    {out : List Nat} (h : processRectImage cfg rf img = Except.ok out) :
    rectShapeOk cfg img = true
    ∧ listMin (normalizedPixels cfg rf img) = some 0
    ∧ (∀ v ∈ normalizedPixels cfg rf img, v ≤ 1)
    ∧ out = (normalizedPixels cfg rf img).map (fun v => v * 255) := by
  unfold processRectImage at h
  by_cases hsh : rectShapeOk cfg img = true
  · rw [if_neg (by simp [hsh])] at h
    cases hmn : listMin (normalizedPixels cfg rf img) with
    | none => rw [hmn] at h; cases listMax (normalizedPixels cfg rf img) <;> simp [hmn] at h
    | some mn =>
      cases hmx : listMax (normalizedPixels cfg rf img) with
      | none => rw [hmn, hmx] at h; simp at h
      | some mx =>
        rw [hmn, hmx] at h
        simp only at h
        by_cases h0 : mn ≠ 0
        · rw [if_pos h0] at h; simp at h
        · rw [if_neg h0] at h
          by_cases h1 : mx > 1
          · rw [if_pos h1] at h; simp at h
          · rw [if_neg h1] at h
            push_neg at h0 h1
            simp only [Except.ok.injEq] at h
            have hle : ∀ v ∈ normalizedPixels cfg rf img, v ≤ 1 := by
              intro v hv
              have hvm := listMax_ge _ mx hmx v hv
              omega
            refine ⟨hsh, by rw [h0], hle, ?_⟩
            rw [← h]
            apply List.map_congr_left
            intro v hv
            have hv1 : v * 255 < 256 := by
              have := hle v hv
              omega
            exact Nat.mod_eq_of_lt hv1
  · rw [if_pos (by simp [hsh])] at h
    simp at h

theorem processRectImage_error_of_bad_pixels {cfg : Cfg} {rf : List Nat → List Nat}
    {img : Img} {mn mx : Nat}
    (hsh : rectShapeOk cfg img = true)
    (hmn : listMin (normalizedPixels cfg rf img) = some mn)
    (hmx : listMax (normalizedPixels cfg rf img) = some mx)
    (hbad : mn ≠ 0 ∨ mx > 1) :
    (processRectImage cfg rf img).isOk = false := by
  unfold processRectImage
  rw [if_neg (by simp [hsh]), hmn, hmx]
  simp only
  by_cases h0 : mn ≠ 0
  · rw [if_pos h0]; rfl
  · rw [if_neg h0]
    push_neg at h0
    have h1 : mx > 1 := by
      rcases hbad with hb | hb
      · exact absurd h0 hb
      · exact hb
    rw [if_pos h1]
    rfl

/-- Claim C7: inside `_load_data_part`, after dtype coercion, optional
resampling and channel replication, an image whose minimum pixel is not
0 or whose maximum exceeds 1 makes the whole load fail (no partial
result); an image passing the gate is rescaled by multiplying by 255 in
the 8-bit dtype (no wraparound, as the values are 0/1). -/
theorem C7_pixel_contract :
    (∀ (cfg : Cfg) (rf : List Nat → List Nat) (img : Img) (out : List Nat),
      processRectImage cfg rf img = Except.ok out →
        listMin (normalizedPixels cfg rf img) = some 0
        ∧ (∀ v ∈ normalizedPixels cfg rf img, v ≤ 1)
        ∧ out = (normalizedPixels cfg rf img).map (fun v => v * 255))
    ∧ (∀ (cfg : Cfg) (rf : List Nat → List Nat) (img : Img) (mn mx : Nat),
      rectShapeOk cfg img = true →
      listMin (normalizedPixels cfg rf img) = some mn →
      listMax (normalizedPixels cfg rf img) = some mx →
      (mn ≠ 0 ∨ mx > 1) → (processRectImage cfg rf img).isOk = false)
    ∧ (∀ (cfg : Cfg) (rf : List Nat → List Nat) (rectArr : List Img)
        (fpParts : List (List Img)) (lines : List PyStr)
        (partsId : List (Int × (Int × Int))) (part : Int) (removeNull shuffle : Bool)
        (sh : Nat → List Nat) (ab : Int × Int) (i : Int) (img : Img),
      dictGet partsId part = some ab → i ∈ intRange ab.1 ab.2 →
      pyIndex rectArr i = some img →
      (processRectImage cfg rf img).isOk = false →
      (loadDataPart cfg rf rectArr fpParts lines partsId part removeNull shuffle sh).isOk
        = false) := by
  refine ⟨?_, ?_, ?_⟩
  · intro cfg rf img out h
    obtain ⟨_, h1, h2, h3⟩ := processRectImage_ok_inv h
    exact ⟨h1, h2, h3⟩
  · intro cfg rf img mn mx hsh hmn hmx hbad
    exact processRectImage_error_of_bad_pixels hsh hmn hmx hbad
  · intro cfg rf rectArr fpParts lines partsId part removeNull shuffle sh ab i img
      hab hi hidx hbadimg
    cases hload : loadDataPart cfg rf rectArr fpParts lines partsId part removeNull shuffle sh with
    | error e => rfl
    | ok pr =>
      exfalso
      obtain ⟨res, removed⟩ := pr
      obtain ⟨b0, hb0, _, _⟩ := loadDataPart_ok_inv hload
      obtain ⟨ab', hab', npr, hnpr, _⟩ := loadBase_ok_inv hb0
      rw [hab] at hab'
      have habe : ab' = ab := (Option.some.inj hab').symm
      subst habe
      obtain ⟨y, hy⟩ := exMapM_ok_of_mem hnpr i hi
      obtain ⟨img', himg', hproc⟩ := exBind_ok hy
      have he : img' = img := by
        have h1 := toExceptMsg_ok himg'
        rw [hidx] at h1
        exact (Option.some.inj h1).symm
      rw [he] at hproc
      rw [hproc] at hbadimg
      simp [Except.isOk, Except.toBool] at hbadimg

/-- Witness for C7: the concrete image `wImg` passes the contract and
is rescaled; the concrete all-5 image fails the gate and makes the load
of part 1 of `wSt` fail. -/
theorem C7_pixel_contract_witness :
    (listMin (normalizedPixels ⟨2, 2, 1, 1⟩ id wImg) = some 0
      ∧ [0, 255, 0, 255] = (normalizedPixels ⟨2, 2, 1, 1⟩ id wImg).map (fun v => v * 255))
    ∧ (processRectImage ⟨2, 2, 1, 1⟩ id wFimg).isOk = false
    ∧ (loadDataPart ⟨2, 2, 1, 1⟩ id [wFimg, wImg, wImg] [[wFimg, wFimg], [wFimg]] wLines
        [(1, (0, 1)), (2, (2, 2))] 1 false false (fun n => List.range n)).isOk = false := by
  refine ⟨?_, ?_, ?_⟩
  · obtain ⟨h1, _, h3⟩ := C7_pixel_contract.1 ⟨2, 2, 1, 1⟩ id wImg [0, 255, 0, 255] rfl
    exact ⟨h1, h3⟩
  · exact C7_pixel_contract.2.1 ⟨2, 2, 1, 1⟩ id wFimg 5 5 rfl rfl rfl (Or.inl (by decide))
  · exact C7_pixel_contract.2.2 ⟨2, 2, 1, 1⟩ id [wFimg, wImg, wImg] [[wFimg, wFimg], [wFimg]]
      wLines [(1, (0, 1)), (2, (2, 2))] 1 false false (fun n => List.range n) (0, 1) 0 wFimg
      rfl (by decide) rfl
      (C7_pixel_contract.2.1 ⟨2, 2, 1, 1⟩ id wFimg 5 5 rfl rfl rfl (Or.inl (by decide)))

theorem unzip4_get? :
    ∀ (ts : List (Int × Int × Int × Int)) (j : Nat) (t : Int × Int × Int × Int),
      ts.get? j = some t →
      (unzip4 ts).1.get? j = some t.1 ∧ (unzip4 ts).2.1.get? j = some t.2.1 ∧
      (unzip4 ts).2.2.1.get? j = some t.2.2.1 ∧ (unzip4 ts).2.2.2.get? j = some t.2.2.2 := by
  intro ts
  induction ts with
  | nil => intro j t h; simp at h
  | cons t0 rest ih =>
    intro j t h
    obtain ⟨a, b, c, d⟩ := t0
    cases j with
    | zero =>
      simp only [List.get?_cons_zero, Option.some.injEq] at h
      subst h
      simp [unzip4]
    | succ j' =>
      simp only [List.get?_cons_succ] at h
      have hr := ih j' t h
      simp only [unzip4]
      exact hr

/-- Claim C9: `_load_data_part` uses the manifest global-id range of a
part directly as 0-based positions — the processed rect images come
from positions `first..last` of the concatenated rect array, and the id
table from positions `first..last` of the manifest-line list, so the
returned rows are exactly part `p`'s entries precisely when every
line's global id equals its 0-based position. -/
theorem C9_positional_indexing (cfg : Cfg) (rf : List Nat → List Nat)
    (rectArr : List Img) (fpParts : List (List Img)) (lines : List PyStr)
    (partsId : List (Int × (Int × Int))) (part : Int) (b : BaseResult) (ab : Int × Int)
    (h : loadBase cfg rf rectArr fpParts lines partsId part = Except.ok b)
    (hab : dictGet partsId part = some ab)
    (ha : 0 ≤ ab.1) :
    b.npr.length = (ab.2 + 1 - ab.1).toNat
    ∧ (∀ j, j < (ab.2 + 1 - ab.1).toNat →
        processRectImage cfg rf (rectArr.getD (ab.1.toNat + j) ⟨0, 0, none, []⟩)
          = Except.ok (b.npr.getD j [])
        ∧ parseLineIds (lines.getD (ab.1.toNat + j) [])
          = some (b.image.getD j 0, b.rect.getD j 0, b.project.getD j 0, b.mutator.getD j 0))
    ∧ ((∀ i, i < lines.length →
          (parseLineIds (lines.getD i [])).map (fun t => t.1) = some ((i : Nat) : Int)) →
        ∀ j, j < (ab.2 + 1 - ab.1).toNat → b.image.getD j 0 = ab.1 + (j : Int)) := by
  obtain ⟨ab', hab', npr, hnpr, fparr, hfparr, hflen, hfchk, ids, hids, hb⟩ := loadBase_ok_inv h
  rw [hab] at hab'
  have habe : ab' = ab := (Option.some.inj hab').symm
  rw [habe] at hnpr hids
  obtain ⟨ts, hts, hidse⟩ := loadId_ok_inv hids
  have hnlen : b.npr.length = (ab.2 + 1 - ab.1).toNat := by
    rw [hb]
    simp only
    rw [exMapM_ok_length hnpr, intRange_length]
  have htslen : ts.length = (ab.2 + 1 - ab.1).toNat := by
    rw [exMapM_ok_length hts, intRange_length]
  have hkey : ∀ j, j < (ab.2 + 1 - ab.1).toNat →
      processRectImage cfg rf (rectArr.getD (ab.1.toNat + j) ⟨0, 0, none, []⟩)
        = Except.ok (b.npr.getD j [])
      ∧ parseLineIds (lines.getD (ab.1.toNat + j) [])
        = some (b.image.getD j 0, b.rect.getD j 0, b.project.getD j 0, b.mutator.getD j 0) := by
    intro j hj
    have hjlt : j < (intRange ab.1 ab.2).length := by rw [intRange_length]; exact hj
    have honat : ((ab.1 + (j : Int))).toNat = ab.1.toNat + j := by omega
    constructor
    · obtain ⟨x, y, hx, hy, hfx⟩ := exMapM_ok_get hnpr j (by rw [intRange_length]; exact hj)
      rw [intRange_get? ab.1 ab.2 j hj] at hx
      have hxe : x = ab.1 + (j : Int) := Option.some.inj hx.symm
      subst hxe
      obtain ⟨img, himg, hproc⟩ := exBind_ok hfx
      have hpy := toExceptMsg_ok himg
      have hpyeq : pyIndex rectArr (ab.1 + (j : Int)) = rectArr.get? (ab.1.toNat + j) := by
        unfold pyIndex
        rw [if_pos (by omega), honat]
      rw [hpyeq] at hpy
      have hgd : rectArr.getD (ab.1.toNat + j) ⟨0, 0, none, []⟩ = img :=
        getD_of_get? _ hpy
      rw [hgd]
      have hnprj : b.npr.get? j = some y := by rw [hb]; exact hy
      rw [getD_of_get? [] hnprj]
      exact hproc
    · obtain ⟨x, t, hx, ht, hfx⟩ := exMapM_ok_get hts j (by rw [intRange_length]; exact hj)
      rw [intRange_get? ab.1 ab.2 j hj] at hx
      have hxe : x = ab.1 + (j : Int) := Option.some.inj hx.symm
      subst hxe
      obtain ⟨ln, hln, hparse⟩ := exBind_ok hfx
      have hpy := toExceptMsg_ok hln
      have hpyeq : pyIndex lines (ab.1 + (j : Int)) = lines.get? (ab.1.toNat + j) := by
        unfold pyIndex
        rw [if_pos (by omega), honat]
      rw [hpyeq] at hpy
      rw [getD_of_get? [] hpy]
      have hparsed := toExceptMsg_ok hparse
      obtain ⟨hu1, hu2, hu3, hu4⟩ := unzip4_get? ts j t ht
      have hbim : b.image.get? j = some t.1 := by rw [hb, hidse]; exact hu1
      have hbre : b.rect.get? j = some t.2.1 := by rw [hb, hidse]; exact hu2
      have hbpr : b.project.get? j = some t.2.2.1 := by rw [hb, hidse]; exact hu3
      have hbmu : b.mutator.get? j = some t.2.2.2 := by rw [hb, hidse]; exact hu4
      rw [getD_of_get? 0 hbim, getD_of_get? 0 hbre, getD_of_get? 0 hbpr,
        getD_of_get? 0 hbmu]
      exact hparsed
  refine ⟨hnlen, hkey, ?_⟩
  intro hpos j hj
  obtain ⟨_, hparse⟩ := hkey j hj
  have hlt : ab.1.toNat + j < lines.length := by
    by_contra hge
    push_neg at hge
    have hnone : lines.getD (ab.1.toNat + j) [] = [] := by
      have : lines.get? (ab.1.toNat + j) = none := List.get?_eq_none.mpr hge
      simp [List.getD_eq_getElem?_getD, ← List.get?_eq_getElem?, this]
    rw [hnone] at hparse
    simp [parseLineIds, pySplit, pySplitAux, parseInt, pyTrim, digitsVal,
      Bind.bind, Option.bind] at hparse
  have hip := hpos (ab.1.toNat + j) hlt
  rw [hparse, Option.map_some'] at hip
  have hipe := Option.some.inj hip
  simp only at hipe
  rw [hipe]
  omega

/-- Witness for C9: the theorem applied to `wSt`'s x-stream data at
part 1, position 0. -/
theorem C9_positional_indexing_witness :
    processRectImage ⟨2, 2, 1, 1⟩ id ([wImg, wImg, wImg].getD 0 ⟨0, 0, none, []⟩)
      = Except.ok (wBaseSo.res.npr.getD 0 [])
    ∧ wBaseSo.res.image.getD 0 0 = 0 := by
  have h := C9_positional_indexing ⟨2, 2, 1, 1⟩ id [wImg, wImg, wImg]
    [[wFimg, wFimg], [wFimg]] wLines [(1, (0, 1)), (2, (2, 2))] 1 wBaseSo.res (0, 1)
    rfl rfl (by decide)
  refine ⟨(h.2.1 0 (by decide)).1, ?_⟩
  have h3 := h.2.2 (by decide) 0 (by decide)
  simpa using h3

theorem pyScalEq_refl (s : JScal) : pyScalEq s s = true := by
  cases s <;> simp [pyScalEq]

theorem seqEq_refl (l : List JScal) : seqEq l l = true := by
  unfold seqEq
  simp only [beq_self_eq_true, Bool.true_and]
  induction l with
  | nil => simp
  | cons x xs ih =>
    simp only [List.zip_cons_cons, List.all_cons, ih, Bool.and_true]
    exact pyScalEq_refl x

theorem valEq_jsonVal (v : JVal) : valEq v (jsonVal v) = some true := by
  cases v with
  | scal s =>
    simp only [jsonVal, valEq]
    rw [if_neg (by simp)]
    rw [pyScalEq_refl]
  | jlist l => simp [jsonVal, valEq, seqEq_refl]
  | jtup l => simp [jsonVal, valEq, seqEq_refl]

theorem keyStr_jsonKey (k : JScal) : keyStr (jsonKey k) = keyStr k := by
  cases k <;> rfl

theorem isDictEqualGo_jsonDict (d : List (JScal × JVal)) :
    isDictEqualGo d (jsonDict d) = some true := by
  induction d with
  | nil => rfl
  | cons e rest ih =>
    obtain ⟨k, v⟩ := e
    simp only [jsonDict, List.map_cons, isDictEqualGo]
    rw [if_neg (by rw [keyStr_jsonKey]; exact fun hc => hc rfl)]
    rw [valEq_jsonVal]
    simpa [jsonDict] using ih

theorem isDictEqual_jsonDict (d : List (JScal × JVal)) :
    isDictEqual d (jsonDict d) = some true := by
  unfold isDictEqual
  rw [if_neg (by simp [jsonDict])]
  exact isDictEqualGo_jsonDict d

/-- Claim C10: `_is_dict_equal` compares keys by `str()` (so integer
key 1 equals string key "1"), compares list and tuple values
elementwise without distinguishing the two kinds, and consequently the
comparison of any dict against its JSON round trip — in particular the
in-memory integer-keyed, tuple-valued PartRange against its decoded
string-keyed, list-valued copy in `load_session` — returns True. -/
theorem C10_dict_equality_stringly :
    keyStr (JScal.jint 1) = keyStr (JScal.jstr ['1'])
    ∧ (∀ xs ys : List JScal, valEq (JVal.jtup xs) (JVal.jlist ys) = some (seqEq xs ys))
    ∧ (∀ d : List (JScal × JVal), isDictEqual d (jsonDict d) = some true)
    ∧ (∀ p : List (Int × (Int × Int)),
        isDictEqual (encodePartsId p) (jsonDict (encodePartsId p)) = some true)
    ∧ (∀ p : List (Int × List Int),
        isDictEqual (encodeProjectId p) (jsonDict (encodeProjectId p)) = some true) := by
  refine ⟨rfl, fun xs ys => rfl, isDictEqual_jsonDict, ?_, ?_⟩
  · intro p
    exact isDictEqual_jsonDict (encodePartsId p)
  · intro p
    exact isDictEqual_jsonDict (encodeProjectId p)

/-- Claim C8: `save_session` followed by `load_session` over unchanged
files succeeds; and when any single shard file's bytes change in a way
that changes the chained digest — the x or y rect-image file, or any
per-part floor-photo file of either stream — the corresponding
stream-family hash (`rect` or `fphoto`) differs, the other family's
hash does not, and `load_session` fails with the error naming the
mismatched field. The collision-freeness of the underlying digests at
the compared inputs is a hypothesis (md5 is cryptographic, not
injective in logic). -/
theorem C8_session_roundtrip :
    (∀ (md5 : List Nat → PyStr) (chain : PyStr → PyStr) (meta : LoaderMeta)
        (fs : FilesState) (desc : PyStr),
      loadSession md5 chain meta fs (saveSession md5 chain meta fs desc) = Except.ok ())
    ∧ (∀ (md5 : List Nat → PyStr) (chain : PyStr → PyStr) (meta : LoaderMeta)
        (fs : FilesState) (desc : PyStr) (bytes : List Nat),
      chain (md5 bytes ++ md5 fs.rectY) ≠ chain (md5 fs.rectX ++ md5 fs.rectY) →
      hashRectFiles md5 chain { fs with rectX := bytes } ≠ hashRectFiles md5 chain fs
      ∧ hashPhotoFiles md5 chain { fs with rectX := bytes } = hashPhotoFiles md5 chain fs
      ∧ loadSession md5 chain meta { fs with rectX := bytes }
          (saveSession md5 chain meta fs desc)
        = Except.error ("Rect image hash is not the same".toList))
    ∧ (∀ (md5 : List Nat → PyStr) (chain : PyStr → PyStr) (meta : LoaderMeta)
        (fs : FilesState) (desc : PyStr) (bytes : List Nat),
      chain (md5 fs.rectX ++ md5 bytes) ≠ chain (md5 fs.rectX ++ md5 fs.rectY) →
      hashRectFiles md5 chain { fs with rectY := bytes } ≠ hashRectFiles md5 chain fs
      ∧ hashPhotoFiles md5 chain { fs with rectY := bytes } = hashPhotoFiles md5 chain fs
      ∧ loadSession md5 chain meta { fs with rectY := bytes }
          (saveSession md5 chain meta fs desc)
        = Except.error ("Rect image hash is not the same".toList))
    ∧ (∀ (md5 : List Nat → PyStr) (chain : PyStr → PyStr) (meta : LoaderMeta)
        (fs : FilesState) (desc : PyStr) (i : Nat) (bytes : List Nat),
      chain ((((fs.photoX.set i bytes).zip fs.photoY).map
          (fun p => md5 p.1 ++ md5 p.2)).flatten)
        ≠ chain (((fs.photoX.zip fs.photoY).map (fun p => md5 p.1 ++ md5 p.2)).flatten) →
      hashPhotoFiles md5 chain { fs with photoX := fs.photoX.set i bytes }
          ≠ hashPhotoFiles md5 chain fs
      ∧ hashRectFiles md5 chain { fs with photoX := fs.photoX.set i bytes }
          = hashRectFiles md5 chain fs
      ∧ loadSession md5 chain meta { fs with photoX := fs.photoX.set i bytes }
          (saveSession md5 chain meta fs desc)
        = Except.error ("Floor image hash is not the same".toList))
    ∧ (∀ (md5 : List Nat → PyStr) (chain : PyStr → PyStr) (meta : LoaderMeta)
        (fs : FilesState) (desc : PyStr) (i : Nat) (bytes : List Nat),
      chain (((fs.photoX.zip (fs.photoY.set i bytes)).map
          (fun p => md5 p.1 ++ md5 p.2)).flatten)
        ≠ chain (((fs.photoX.zip fs.photoY).map (fun p => md5 p.1 ++ md5 p.2)).flatten) →
      hashPhotoFiles md5 chain { fs with photoY := fs.photoY.set i bytes }
          ≠ hashPhotoFiles md5 chain fs
      ∧ hashRectFiles md5 chain { fs with photoY := fs.photoY.set i bytes }
          = hashRectFiles md5 chain fs
      ∧ loadSession md5 chain meta { fs with photoY := fs.photoY.set i bytes }
          (saveSession md5 chain meta fs desc)
        = Except.error ("Floor image hash is not the same".toList)) := by
  refine ⟨?_, ?_, ?_, ?_, ?_⟩
  · intro md5 chain meta fs desc
    unfold loadSession saveSession
    simp only []
    rw [if_neg (by simp), if_neg (by simp), if_neg (by simp), if_neg (by simp)]
    rw [isDictEqual_jsonDict (encodePartsId meta.partsId)]
    rw [isDictEqual_jsonDict (encodeProjectId meta.partsProjectId)]
    simp only []
    rw [if_neg (by simp), if_neg (by simp)]
  · intro md5 chain meta fs desc bytes hne
    have hR : hashRectFiles md5 chain { fs with rectX := bytes }
        ≠ hashRectFiles md5 chain fs := by
      unfold hashRectFiles
      exact hne
    refine ⟨hR, rfl, ?_⟩
    unfold loadSession saveSession
    simp only []
    rw [if_neg (by simp), if_neg (by simp), if_pos hR]
  · intro md5 chain meta fs desc bytes hne
    have hR : hashRectFiles md5 chain { fs with rectY := bytes }
        ≠ hashRectFiles md5 chain fs := by
      unfold hashRectFiles
      exact hne
    refine ⟨hR, rfl, ?_⟩
    unfold loadSession saveSession
    simp only []
    rw [if_neg (by simp), if_neg (by simp), if_pos hR]
  · intro md5 chain meta fs desc i bytes hne
    have hP : hashPhotoFiles md5 chain { fs with photoX := fs.photoX.set i bytes }
        ≠ hashPhotoFiles md5 chain fs := by
      unfold hashPhotoFiles
      exact hne
    refine ⟨hP, rfl, ?_⟩
    unfold loadSession saveSession
    simp only []
    rw [if_neg (by simp), if_neg (by simp), if_neg (fun hc => hc rfl), if_pos hP]
  · intro md5 chain meta fs desc i bytes hne
    have hP : hashPhotoFiles md5 chain { fs with photoY := fs.photoY.set i bytes }
        ≠ hashPhotoFiles md5 chain fs := by
      unfold hashPhotoFiles
      exact hne
    refine ⟨hP, rfl, ?_⟩
    unfold loadSession saveSession
    simp only []
    rw [if_neg (by simp), if_neg (by simp), if_neg (fun hc => hc rfl), if_pos hP]

/-- A toy injective-on-the-inputs digest for the C8 witness. -/
def wMd5 (l : List Nat) : PyStr :=
  l.map (fun n => Char.ofNat (n + 48))

/-- Loader metadata of the C8 witness. -/
def wMeta : LoaderMeta := ⟨[(1, (0, 1))], [(1, [2])], 2, 2, 1, 1⟩

/-- Files of the C8 witness. -/
def wFs : FilesState := ⟨[0], [1], [[2]], [[3]]⟩

/-- Witness for C8: concrete round trip succeeds; flipping a byte of
either rect file makes the load fail naming the rect hash, and
flipping a byte of either stream's floor-photo part file makes it fail
naming the floor hash. -/
theorem C8_session_roundtrip_witness :
    loadSession wMd5 id wMeta wFs (saveSession wMd5 id wMeta wFs []) = Except.ok ()
    ∧ loadSession wMd5 id wMeta { wFs with rectX := [1] }
        (saveSession wMd5 id wMeta wFs [])
      = Except.error ("Rect image hash is not the same".toList)
    ∧ loadSession wMd5 id wMeta { wFs with rectY := [0] }
        (saveSession wMd5 id wMeta wFs [])
      = Except.error ("Rect image hash is not the same".toList)
    ∧ loadSession wMd5 id wMeta { wFs with photoX := wFs.photoX.set 0 [9] }
        (saveSession wMd5 id wMeta wFs [])
      = Except.error ("Floor image hash is not the same".toList)
    ∧ loadSession wMd5 id wMeta { wFs with photoY := wFs.photoY.set 0 [9] }
        (saveSession wMd5 id wMeta wFs [])
      = Except.error ("Floor image hash is not the same".toList) := by
  refine ⟨C8_session_roundtrip.1 wMd5 id wMeta wFs [], ?_, ?_, ?_, ?_⟩
  · exact (C8_session_roundtrip.2.1 wMd5 id wMeta wFs [] [1] (by decide)).2.2
  · exact (C8_session_roundtrip.2.2.1 wMd5 id wMeta wFs [] [0] (by decide)).2.2
  · exact (C8_session_roundtrip.2.2.2.1 wMd5 id wMeta wFs [] 0 [9] (by decide)).2.2
  · exact (C8_session_roundtrip.2.2.2.2 wMd5 id wMeta wFs [] 0 [9] (by decide)).2.2

end FloorPhotoXY
